import Mathlib

/-!
# murder.go: the discover / open / filter / terminate pipeline

A shallow embedding of `murder.go`.

* Go byte slices are lists of natural numbers, process identifiers (`int`) are integers.
* The six global `int64` counters are natural numbers: each starts at zero and is
  incremented by one per item handled, so no wrap-around is involved.
* The operating system and the standard library (directory listing, `strconv.Atoi`,
  `os.FindProcess`, `ioutil.ReadFile`, `os.Getpid`, `Process.Wait`, `Process.Kill`,
  the compiled user pattern) are parameters, collected in `OS` or passed as a function.
* A Go `panic` that is not recovered is an `Except.error` (or `Result.panicked`) in the
  sequential functions and the field `aborted` in the concurrent program; a call of
  `Wait` that never returns is `WaitResult.never`.
* Each function is embedded twice where a claim needs both readings: as a function on the
  whole sequence its input channel carries (`openProcs`, `matchProcs`, `tryKill`), and as
  the steps of its goroutine in the concurrent program (`stepOpen`, `stepMatch`,
  `stepKiller` with `stepMonitor`); the theorem `completed_run_is_pipeline` relates the two.
-/

namespace Murder

/-! ## Data model (murder.go lines 14-27) -/

/-- Go `[]byte`. -/
abbrev Bytes := List Nat

/-- The six global counters of lines 14-21. -/
structure Counters where
  nProcs : Nat
  nRestricted : Nat
  nScanned : Nat
  nMatched : Nat
  nKilled : Nat
  nProtected : Nat
deriving DecidableEq

/-- All counters at their initial value. -/
def Counters.zero : Counters := ⟨0, 0, 0, 0, 0, 0⟩

/-- The handle `*os.Process`, identified by its `Pid` field. -/
structure OsProcess where
  Pid : Int
deriving DecidableEq

/-- The struct `Process` of lines 23-27. -/
structure Process where
  pid : Int
  proc : OsProcess
  cmdline : Bytes
deriving DecidableEq

/-- What a non-nil `*os.ProcessState` is observed through by this program:
its pid and the answer of its method `Exited()`. -/
structure ProcessState where
  pid : Int
  reportsExited : Bool
deriving DecidableEq

/-- The behaviour of one call `p.Wait()`: it never returns, or it returns a state
pointer (`none` is `nil`) and an error value (`none` is `nil`). -/
inductive WaitResult where
  | never : WaitResult
  | returns (state : Option ProcessState) (err : Option String) : WaitResult
deriving DecidableEq

/-- The environment the program runs in. -/
structure OS where
  /-- The call `ioutil.ReadDir("/proc")`: the entry names, or `none` for an error. -/
  readDir : Option (List String)
  /-- The text `%v` prints for the error of `ioutil.ReadDir("/proc")`, when there is one. -/
  readDirErr : String
  /-- The function `strconv.Atoi`, `none` for an error. -/
  atoi : String → Option Int
  /-- The function `os.FindProcess`, `none` for an error. -/
  findProcess : Int → Option OsProcess
  /-- The function `ioutil.ReadFile`, `none` for an error. -/
  readFile : String → Option Bytes
  /-- The function `os.Getpid`. -/
  getpid : Int
  /-- The method `(*os.Process).Wait`. -/
  wait : OsProcess → WaitResult
  /-- The method `(*os.Process).Kill`: the error it returns, `none` for `nil`. -/
  kill : OsProcess → Option String

/-- The two `Printf` calls of `tryKill` (lines 111 and 114), with their arguments:
`killed pid cmdline` is `"Killed Process %d: '%s'\n"` and
`couldNot pid cmdline` is `"Could not kill %d: '%s'\n"`. -/
inductive Line where
  | killed (pid : Int) (cmdline : Bytes) : Line
  | couldNot (pid : Int) (cmdline : Bytes) : Line
deriving DecidableEq

/-! ## listPIDs (lines 29-42) -/

/-- The panic value of line 32, `fmt.Sprintf("Error reading /proc: %v\n", err)`. -/
def readDirPanic (os : OS) : String :=
  "Error reading /proc: " ++ os.readDirErr ++ "\n"

/-! ## openProcs (lines 44-59) -/

/-- The path built at line 51, `fmt.Sprintf("/proc/%d/cmdline", pid)`. -/
def cmdlinePath (pid : Int) : String :=
  "/proc/" ++ toString pid ++ "/cmdline"

/-- The three ways one iteration of the loop of `openProcs` ends. -/
inductive OpenStep where
  | restricted : OpenStep
  | fatal (msg : String) : OpenStep
  | record (p : Process) : OpenStep
deriving DecidableEq

/-- One iteration of the loop body of `openProcs`, lines 46-56. -/
def openOne (os : OS) (pid : Int) : OpenStep :=
  match os.findProcess pid with
  | none => OpenStep.restricted
  | some proc =>
    match os.readFile (cmdlinePath pid) with
    | none => OpenStep.fatal ("Error: could not open cmd of pid " ++ toString pid ++ "\n")
    | some name => OpenStep.record ⟨pid, proc, name⟩

/-- The function `openProcs` on the whole sequence received from `pids`: the counters after
the loop and the sequence sent on `procs`, or the panic message. -/
def openProcs (os : OS) : List Int → Counters → Except String (Counters × List Process)
  | [], c => Except.ok (c, [])
  | pid :: pids, c =>
    match openOne os pid with
    | OpenStep.restricted => openProcs os pids { c with nRestricted := c.nRestricted + 1 }
    | OpenStep.fatal msg => Except.error msg
    | OpenStep.record p =>
      match openProcs os pids c with
      | Except.ok (c2, out) => Except.ok (c2, p :: out)
      | Except.error msg => Except.error msg

/-! ## matchProcs (lines 61-72) -/

/-- Whether `hay` starts with `needle`. -/
def startsWith : Bytes → Bytes → Bool
  | [], _ => true
  | _ :: _, [] => false
  | a :: as, b :: bs => a == b && startsWith as bs

/-- Whether `needle` occurs in `hay` as a contiguous block. -/
def containsBytes (needle : Bytes) : Bytes → Bool
  | [] => startsWith needle []
  | b :: bs => startsWith needle (b :: bs) || containsBytes needle bs

/-- The text compiled at line 63. It holds no regular-expression operator, so the
compiled pattern matches exactly the byte strings that contain this text. -/
def selfPatternText : Bytes :=
  "/usr/local/go/bin/go".data.map Char.toNat

/-- The call `selfPattern.Match` of line 66. -/
def selfPattern (cmdline : Bytes) : Bool :=
  containsBytes selfPatternText cmdline

/-- The condition of line 66. -/
def matchCond (pattern : Bytes → Bool) (localPid : Int) (proc : Process) : Bool :=
  pattern proc.cmdline && !selfPattern proc.cmdline && proc.pid != localPid

/-- The function `matchProcs` on the whole sequence received from `inProcs`: the counters
after the loop and the sequence sent on `outProcs`. -/
def matchProcs (pattern : Bytes → Bool) (os : OS) : List Process → Counters → Counters × List Process
  | [], c => (c, [])
  | proc :: rest, c =>
    let c1 := { c with nScanned := c.nScanned + 1 }
    if matchCond pattern os.getpid proc then
      let r := matchProcs pattern os rest { c1 with nMatched := c1.nMatched + 1 }
      (r.1, proc :: r.2)
    else
      matchProcs pattern os rest c1

/-! ## exited (lines 88-100) -/

/-- The method `(*os.ProcessState).Exited`: it reads through the receiver, so a nil
receiver raises a run-time panic. -/
def ProcessState.Exited : Option ProcessState → Except String Bool
  | none => Except.error "runtime error: invalid memory address or nil pointer dereference"
  | some st => Except.ok st.reportsExited

/-- The frame of a call of `exited`: the named result `didExit` and the panic in flight. -/
structure ExitedFrame where
  didExit : Bool
  panicking : Option String
deriving DecidableEq

/-- The body of `exited`, lines 94-99. -/
def exitedBody (state : Option ProcessState) (f : ExitedFrame) : ExitedFrame :=
  match ProcessState.Exited state with
  | Except.error p => { f with panicking := some p }
  | Except.ok b => if b then { f with didExit := true } else { f with didExit := false }

/-- The deferred function of lines 89-93: `recover()` yields the panic in flight and
stops it; when there is one, `didExit` is set to `true`. -/
def exitedDeferred (f : ExitedFrame) : ExitedFrame :=
  match f.panicking with
  | some _ => { didExit := true, panicking := none }
  | none => f

/-- The function `exited`: the body runs with `didExit` at its zero value, then the
deferred function; the call returns `didExit`, or lets a panic still in flight through. -/
def exited (state : Option ProcessState) : Except String Bool :=
  let f := exitedDeferred (exitedBody state ⟨false, none⟩)
  match f.panicking with
  | some p => Except.error p
  | none => Except.ok f.didExit

/-! ## tryKill with monitorProc (lines 74-86 and 105-117) -/

/-- What the program does to the outside and on `stateChan`, tagged with the number of
the worker (the goroutine of lines 146-149) it belongs to:
the call of `p.Wait()` begins (line 77), it returns, `tryKill` receives the first value
(lines 78 and 107), `Kill` is called (line 108), `tryKill` receives the state (lines 82
and 109), a line is printed (line 111 or 114), the summary is printed (lines 153-159). -/
inductive Event where
  | waitBegin (i : Nat) (h : OsProcess) : Event
  | waitReturn (i : Nat) (h : OsProcess) (state : Option ProcessState) : Event
  | recvFirst (i : Nat) : Event
  | kill (i : Nat) (h : OsProcess) : Event
  | recvState (i : Nat) (state : Option ProcessState) : Event
  | print (i : Nat) (l : Line) : Event
  | summary (c : Counters) : Event
deriving DecidableEq

/-- The worker an event belongs to. -/
def Event.worker : Event → Option Nat
  | Event.waitBegin i _ => some i
  | Event.waitReturn i _ _ => some i
  | Event.recvFirst i => some i
  | Event.kill i _ => some i
  | Event.recvState i _ => some i
  | Event.print i _ => some i
  | Event.summary _ => none

/-- The line printed at line 111 when `exited(state)` is true, at line 114 otherwise. -/
def reportLine (proc : Process) (didExit : Bool) : Line :=
  if didExit then Line.killed proc.pid proc.cmdline else Line.couldNot proc.pid proc.cmdline

/-- The atomic increment of line 112 when `exited(state)` is true, of line 115 otherwise. -/
def reportCount (didExit : Bool) (c : Counters) : Counters :=
  if didExit then { c with nKilled := c.nKilled + 1 } else { c with nProtected := c.nProtected + 1 }

/-- How a call ends: it blocks for ever, it panics, or it returns. -/
inductive Result (α : Type) where
  | blocked : Result α
  | panicked (msg : String) : Result α
  | ok (a : α) : Result α
deriving DecidableEq

/-- The function `tryKill`, called by worker `i`, together with the goroutine started by
`monitorProc`: the events in the order they happen and the counters at the return.
The goroutine calls `p.Wait()` and only when that has returned sends `nil` and then the
state on the unbuffered `stateChan`; `tryKill` receives the first value (line 107),
calls `Kill` (line 108, its result is dropped), receives the state (line 109) and
reports. When `Wait` never returns, the receive of line 107 blocks for ever. -/
def tryKill (os : OS) (i : Nat) (proc : Process) (c : Counters) : Result (List Event × Counters) :=
  match os.wait proc.proc with
  | WaitResult.never => Result.blocked
  | WaitResult.returns state _ =>
    let _ := os.kill proc.proc
    match exited state with
    | Except.error msg => Result.panicked msg
    | Except.ok didExit =>
      Result.ok
        ([Event.waitBegin i proc.proc, Event.waitReturn i proc.proc state, Event.recvFirst i,
          Event.kill i proc.proc, Event.recvState i state, Event.print i (reportLine proc didExit)],
         reportCount didExit c)

/-! ## The concurrent program (lines 133-160)

The goroutines of the program, each with a program counter, take steps one at a time in
an order chosen by a schedule. The three buffered channels hold at most `bufSize` values;
a transfer on the unbuffered `stateChan` of a worker is one step, taken under the name of
the sending goroutine. The model starts at line 142, with the user pattern compiled and
the three pipeline goroutines created. -/

/-- The constant `bufSize` of line 133. -/
def bufSize : Nat := 100

/-- A buffered channel: the values sent and not yet received, oldest first, and whether
`close` was called. -/
structure Chan (α : Type) where
  buf : List α
  closed : Bool
deriving DecidableEq

/-- Where the goroutine `listPIDs` stands: before line 30, at the loop head of line 34
with the entries still to visit, before line 37, before line 38, before line 41, returned. -/
inductive ListPC where
  | readDir : ListPC
  | loop (files : List String) : ListPC
  | count (pid : Int) (files : List String) : ListPC
  | send (pid : Int) (files : List String) : ListPC
  | close : ListPC
  | done : ListPC
deriving DecidableEq

/-- Where the goroutine `openProcs` stands: at the receive of line 45, before line 46 with
the pid received, before line 48, before line 56, before line 58, returned. -/
inductive OpenPC where
  | recv : OpenPC
  | got (pid : Int) : OpenPC
  | restricted : OpenPC
  | send (p : Process) : OpenPC
  | close : OpenPC
  | done : OpenPC
deriving DecidableEq

/-- Where the goroutine `matchProcs` stands: at the receive of line 64, before line 65,
before line 66, before line 67, before line 68, before line 71, returned. -/
inductive MatchPC where
  | recv : MatchPC
  | scan (p : Process) : MatchPC
  | test (p : Process) : MatchPC
  | count (p : Process) : MatchPC
  | send (p : Process) : MatchPC
  | close : MatchPC
  | done : MatchPC
deriving DecidableEq

/-- Where `main` stands: at the receive of line 144, before line 145, before line 146,
at line 152, before line 153, returned. -/
inductive MainPC where
  | recv : MainPC
  | add (p : Process) : MainPC
  | spawn (p : Process) : MainPC
  | wgWait : MainPC
  | summary : MainPC
  | done : MainPC
deriving DecidableEq

/-- Where a goroutine of lines 146-149 stands: before line 106, at the receive of line 107,
before line 108, at the receive of line 109, before the `Printf` of line 111 or 114,
before the `atomic.AddInt64` of line 112 or 115, before line 148, returned. -/
inductive KillPC where
  | monitor : KillPC
  | recvFirst : KillPC
  | kill : KillPC
  | recvState : KillPC
  | classify (state : Option ProcessState) : KillPC
  | add (didExit : Bool) : KillPC
  | wgDone : KillPC
  | done : KillPC
deriving DecidableEq

/-- Where the goroutine of lines 76-84 stands: not created, before the call of line 77,
inside `p.Wait()`, before line 78, before line 82, before line 83, returned. -/
inductive MonitorPC where
  | idle : MonitorPC
  | wait : MonitorPC
  | waiting : MonitorPC
  | sendNil (state : Option ProcessState) : MonitorPC
  | sendState (state : Option ProcessState) : MonitorPC
  | close : MonitorPC
  | done : MonitorPC
deriving DecidableEq

/-- One forwarded record with the two goroutines that handle it. -/
structure Worker where
  proc : Process
  kpc : KillPC
  mpc : MonitorPC
deriving DecidableEq

/-- The state of the whole program. -/
structure State where
  c : Counters
  lpc : ListPC
  pids : Chan Int
  opc : OpenPC
  procs : Chan Process
  mpc : MatchPC
  filtered : Chan Process
  main : MainPC
  wg : Nat
  workers : List Worker
  log : List Event
  aborted : Option String
deriving DecidableEq

/-- The state at line 142. -/
def init : State :=
  { c := Counters.zero
    lpc := ListPC.readDir
    pids := ⟨[], false⟩
    opc := OpenPC.recv
    procs := ⟨[], false⟩
    mpc := MatchPC.recv
    filtered := ⟨[], false⟩
    main := MainPC.recv
    wg := 0
    workers := []
    log := []
    aborted := none }

/-- The goroutines. -/
inductive Actor where
  | list : Actor
  | opener : Actor
  | matcher : Actor
  | main : Actor
  | killer (i : Nat) : Actor
  | monitor (i : Nat) : Actor
deriving DecidableEq

/-- One step of `listPIDs` (lines 29-42). -/
def stepList (os : OS) (s : State) : Option State :=
  match s.lpc with
  | ListPC.readDir =>
    match os.readDir with
    | none => some { s with aborted := some (readDirPanic os) }
    | some files => some { s with lpc := ListPC.loop files }
  | ListPC.loop [] => some { s with lpc := ListPC.close }
  | ListPC.loop (f :: files) =>
    match os.atoi f with
    | some pid => some { s with lpc := ListPC.count pid files }
    | none => some { s with lpc := ListPC.loop files }
  | ListPC.count pid files =>
    some { s with c := { s.c with nProcs := s.c.nProcs + 1 }, lpc := ListPC.send pid files }
  | ListPC.send pid files =>
    if s.pids.buf.length < bufSize then
      some { s with pids := { s.pids with buf := s.pids.buf ++ [pid] }, lpc := ListPC.loop files }
    else none
  | ListPC.close => some { s with pids := { s.pids with closed := true }, lpc := ListPC.done }
  | ListPC.done => none

/-- One step of `openProcs` (lines 44-59). -/
def stepOpen (os : OS) (s : State) : Option State :=
  match s.opc with
  | OpenPC.recv =>
    match s.pids.buf with
    | pid :: rest => some { s with pids := { s.pids with buf := rest }, opc := OpenPC.got pid }
    | [] => if s.pids.closed then some { s with opc := OpenPC.close } else none
  | OpenPC.got pid =>
    match openOne os pid with
    | OpenStep.restricted => some { s with opc := OpenPC.restricted }
    | OpenStep.fatal msg => some { s with aborted := some msg }
    | OpenStep.record p => some { s with opc := OpenPC.send p }
  | OpenPC.restricted =>
    some { s with c := { s.c with nRestricted := s.c.nRestricted + 1 }, opc := OpenPC.recv }
  | OpenPC.send p =>
    if s.procs.buf.length < bufSize then
      some { s with procs := { s.procs with buf := s.procs.buf ++ [p] }, opc := OpenPC.recv }
    else none
  | OpenPC.close => some { s with procs := { s.procs with closed := true }, opc := OpenPC.done }
  | OpenPC.done => none

/-- One step of `matchProcs` (lines 61-72). -/
def stepMatch (pattern : Bytes → Bool) (os : OS) (s : State) : Option State :=
  match s.mpc with
  | MatchPC.recv =>
    match s.procs.buf with
    | p :: rest => some { s with procs := { s.procs with buf := rest }, mpc := MatchPC.scan p }
    | [] => if s.procs.closed then some { s with mpc := MatchPC.close } else none
  | MatchPC.scan p =>
    some { s with c := { s.c with nScanned := s.c.nScanned + 1 }, mpc := MatchPC.test p }
  | MatchPC.test p =>
    if matchCond pattern os.getpid p then some { s with mpc := MatchPC.count p }
    else some { s with mpc := MatchPC.recv }
  | MatchPC.count p =>
    some { s with c := { s.c with nMatched := s.c.nMatched + 1 }, mpc := MatchPC.send p }
  | MatchPC.send p =>
    if s.filtered.buf.length < bufSize then
      some { s with filtered := { s.filtered with buf := s.filtered.buf ++ [p] }, mpc := MatchPC.recv }
    else none
  | MatchPC.close => some { s with filtered := { s.filtered with closed := true }, mpc := MatchPC.done }
  | MatchPC.done => none

/-- One step of `main` (lines 144-160). -/
def stepMain (s : State) : Option State :=
  match s.main with
  | MainPC.recv =>
    match s.filtered.buf with
    | p :: rest => some { s with filtered := { s.filtered with buf := rest }, main := MainPC.add p }
    | [] => if s.filtered.closed then some { s with main := MainPC.wgWait } else none
  | MainPC.add p => some { s with wg := s.wg + 1, main := MainPC.spawn p }
  | MainPC.spawn p =>
    some { s with workers := s.workers ++ [⟨p, KillPC.monitor, MonitorPC.idle⟩], main := MainPC.recv }
  | MainPC.wgWait => if s.wg = 0 then some { s with main := MainPC.summary } else none
  | MainPC.summary => some { s with log := s.log ++ [Event.summary s.c], main := MainPC.done }
  | MainPC.done => none

/-- One step of worker `i` in `tryKill` or at `wg.Done()` (lines 105-117 and 148). The two
receives of lines 107 and 109 are taken in `stepMonitor`. -/
def stepKiller (os : OS) (i : Nat) (s : State) : Option State :=
  match s.workers[i]? with
  | none => none
  | some w =>
    match w.kpc with
    | KillPC.monitor =>
      some { s with workers := s.workers.set i { w with kpc := KillPC.recvFirst, mpc := MonitorPC.wait } }
    | KillPC.recvFirst => none
    | KillPC.kill =>
      let _ := os.kill w.proc.proc
      some { s with workers := s.workers.set i { w with kpc := KillPC.recvState },
                    log := s.log ++ [Event.kill i w.proc.proc] }
    | KillPC.recvState => none
    | KillPC.classify st =>
      match exited st with
      | Except.error msg => some { s with aborted := some msg }
      | Except.ok didExit =>
        some { s with workers := s.workers.set i { w with kpc := KillPC.add didExit },
                      log := s.log ++ [Event.print i (reportLine w.proc didExit)] }
    | KillPC.add didExit =>
      some { s with workers := s.workers.set i { w with kpc := KillPC.wgDone },
                    c := reportCount didExit s.c }
    | KillPC.wgDone =>
      if s.wg = 0 then some { s with aborted := some "sync: negative WaitGroup counter" }
      else some { s with workers := s.workers.set i { w with kpc := KillPC.done }, wg := s.wg - 1 }
    | KillPC.done => none

/-- One step of the goroutine of lines 76-84 of worker `i`. A send on `stateChan` is
taken when `tryKill` stands at the matching receive, and moves both. -/
def stepMonitor (os : OS) (i : Nat) (s : State) : Option State :=
  match s.workers[i]? with
  | none => none
  | some w =>
    match w.mpc with
    | MonitorPC.idle => none
    | MonitorPC.wait =>
      some { s with workers := s.workers.set i { w with mpc := MonitorPC.waiting },
                    log := s.log ++ [Event.waitBegin i w.proc.proc] }
    | MonitorPC.waiting =>
      match os.wait w.proc.proc with
      | WaitResult.never => none
      | WaitResult.returns st _ =>
        some { s with workers := s.workers.set i { w with mpc := MonitorPC.sendNil st },
                      log := s.log ++ [Event.waitReturn i w.proc.proc st] }
    | MonitorPC.sendNil st =>
      if w.kpc = KillPC.recvFirst then
        some { s with workers := s.workers.set i { w with kpc := KillPC.kill, mpc := MonitorPC.sendState st },
                      log := s.log ++ [Event.recvFirst i] }
      else none
    | MonitorPC.sendState st =>
      if w.kpc = KillPC.recvState then
        some { s with workers := s.workers.set i { w with kpc := KillPC.classify st, mpc := MonitorPC.close },
                      log := s.log ++ [Event.recvState i st] }
      else none
    | MonitorPC.close => some { s with workers := s.workers.set i { w with mpc := MonitorPC.done } }
    | MonitorPC.done => none

/-- The step of actor `a`, when it has one: none after a panic, after `main` has returned,
and when the actor is blocked or has returned. -/
def stepOpt (pattern : Bytes → Bool) (os : OS) (a : Actor) (s : State) : Option State :=
  if s.aborted ≠ none ∨ s.main = MainPC.done then none
  else
    match a with
    | Actor.list => stepList os s
    | Actor.opener => stepOpen os s
    | Actor.matcher => stepMatch pattern os s
    | Actor.main => stepMain s
    | Actor.killer i => stepKiller os i s
    | Actor.monitor i => stepMonitor os i s

/-- The state after actor `a` was scheduled: unchanged when it has no step. -/
def step (pattern : Bytes → Bool) (os : OS) (a : Actor) (s : State) : State :=
  (stepOpt pattern os a s).getD s

/-- The state after the actors of a schedule were scheduled in turn. -/
def run (pattern : Bytes → Bool) (os : OS) : List Actor → State → State
  | [], s => s
  | a :: rest, s => run pattern os rest (step pattern os a s)


/-! ## Closed forms used in the statements -/

/-- The value a call of `exited` returns (theorem `exited_eq`). -/
def didExitOf : Option ProcessState → Bool
  | none => true
  | some st => st.reportsExited

/-! ## The events of one worker -/

/-- The state pointer a call of `Wait` returns, when it returns. -/
def WaitResult.state : WaitResult → Option (Option ProcessState)
  | WaitResult.never => none
  | WaitResult.returns st _ => some st

/-- The events of worker `i` in the order the code produces them: all six when `Wait`
returns, the begin of the wait alone when it does not. -/
def script (os : OS) (i : Nat) (proc : Process) : List Event :=
  match os.wait proc.proc with
  | WaitResult.never => [Event.waitBegin i proc.proc]
  | WaitResult.returns st _ =>
    [Event.waitBegin i proc.proc, Event.waitReturn i proc.proc st, Event.recvFirst i,
     Event.kill i proc.proc, Event.recvState i st,
     Event.print i (reportLine proc (didExitOf st))]

/-- Whether the goroutine of lines 76-84 has sent both values. -/
def MonitorPC.finished : MonitorPC → Bool
  | MonitorPC.close => true
  | MonitorPC.done => true
  | _ => false

/-- How many events of its script a worker has produced, from where its two goroutines
stand; `none` for a pair of positions that does not occur. -/
def Worker.progress (os : OS) (w : Worker) : Option Nat :=
  match w.kpc with
  | KillPC.monitor => if w.mpc = MonitorPC.idle then some 0 else none
  | KillPC.recvFirst =>
    match w.mpc with
    | MonitorPC.wait => some 0
    | MonitorPC.waiting => some 1
    | MonitorPC.sendNil st => if (os.wait w.proc.proc).state = some st then some 2 else none
    | _ => none
  | KillPC.kill =>
    match w.mpc with
    | MonitorPC.sendState st => if (os.wait w.proc.proc).state = some st then some 3 else none
    | _ => none
  | KillPC.recvState =>
    match w.mpc with
    | MonitorPC.sendState st => if (os.wait w.proc.proc).state = some st then some 4 else none
    | _ => none
  | KillPC.classify st =>
    if w.mpc.finished = true ∧ (os.wait w.proc.proc).state = some st then some 5 else none
  | KillPC.add b =>
    if w.mpc.finished = true ∧ (os.wait w.proc.proc).state.map didExitOf = some b then some 6
    else none
  | KillPC.wgDone =>
    if w.mpc.finished = true ∧ (os.wait w.proc.proc).state ≠ none then some 6 else none
  | KillPC.done =>
    if w.mpc.finished = true ∧ (os.wait w.proc.proc).state ≠ none then some 6 else none

/-- The events of worker `i` in a log. -/
def eventsOf (i : Nat) (log : List Event) : List Event :=
  log.filter (fun e => e.worker == some i)

/-- Every worker has produced exactly the first events of its script, as many as its
positions tell, and every event in the log belongs to a worker that exists. -/
def WorkersOk (os : OS) (ws : List Worker) (log : List Event) : Prop :=
  (∀ i w, ws[i]? = some w →
      ∃ n, w.progress os = some n ∧ eventsOf i log = (script os i w.proc).take n)
  ∧ (∀ e ∈ log, ∀ i, e.worker = some i → i < ws.length)

/-! ## What is in flight, and the invariants of the program -/

/-- One when `listPIDs` holds a pid it has counted and not yet sent. -/
def ListPC.held : ListPC → Nat
  | ListPC.send _ _ => 1
  | _ => 0

/-- One when `openProcs` holds a pid it has received and not yet disposed of. -/
def OpenPC.held : OpenPC → Nat
  | OpenPC.got _ => 1
  | OpenPC.restricted => 1
  | OpenPC.send _ => 1
  | _ => 0

/-- One when `matchProcs` holds a record it has received and not yet counted. -/
def MatchPC.unscanned : MatchPC → Nat
  | MatchPC.scan _ => 1
  | _ => 0

/-- One when `matchProcs` holds a counted record that it has not yet tested or, the test
passed, not yet counted as matched. -/
def MatchPC.undecided : MatchPC → Nat
  | MatchPC.test _ => 1
  | MatchPC.count _ => 1
  | _ => 0

/-- One when `matchProcs` holds a record counted as matched and not yet sent. -/
def MatchPC.sending : MatchPC → Nat
  | MatchPC.send _ => 1
  | _ => 0

/-- The record `main` has received and not yet handed to a worker. -/
def MainPC.held : MainPC → List Process
  | MainPC.add p => [p]
  | MainPC.spawn p => [p]
  | _ => []

/-- One when `main` has called `wg.Add(1)` for a worker it has not created yet. -/
def MainPC.added : MainPC → Nat
  | MainPC.spawn _ => 1
  | _ => 0

/-- Whether `main` has left the loop of line 144. -/
def MainPC.pastLoop : MainPC → Bool
  | MainPC.wgWait => true
  | MainPC.summary => true
  | MainPC.done => true
  | _ => false

/-- Whether `main` has passed `wg.Wait()`. -/
def MainPC.pastWait : MainPC → Bool
  | MainPC.summary => true
  | MainPC.done => true
  | _ => false

/-- Whether a worker has done its atomic increment. -/
def KillPC.counted : KillPC → Bool
  | KillPC.wgDone => true
  | KillPC.done => true
  | _ => false

/-- Whether a worker has not yet called `wg.Done()`. -/
def KillPC.live : KillPC → Bool
  | KillPC.done => false
  | _ => true

/-- The conservation of identifiers: every identifier counted in `nProcs` is counted in
`nRestricted` or in `nScanned`, or is still on its way. -/
def Conserved (s : State) : Prop :=
  s.c.nProcs = s.c.nRestricted + s.c.nScanned + s.pids.buf.length + s.procs.buf.length
      + s.lpc.held + s.opc.held + s.mpc.unscanned
  ∧ s.c.nMatched + s.mpc.undecided ≤ s.c.nScanned
  ∧ s.c.nMatched =
      s.workers.length + s.main.held.length + s.filtered.buf.length + s.mpc.sending
  ∧ s.c.nKilled + s.c.nProtected = s.workers.countP (fun w => w.kpc.counted)
  ∧ s.wg = s.workers.countP (fun w => w.kpc.live) + s.main.added
  ∧ (s.main.pastWait = true → s.wg = 0)

/-- The closing of the channels follows the pipeline. -/
def Cascade (s : State) : Prop :=
  (s.pids.closed = true → s.lpc = ListPC.done)
  ∧ (s.opc = OpenPC.close ∨ s.opc = OpenPC.done → s.pids.closed = true ∧ s.pids.buf = [])
  ∧ (s.procs.closed = true → s.opc = OpenPC.done)
  ∧ (s.mpc = MatchPC.close ∨ s.mpc = MatchPC.done → s.procs.closed = true ∧ s.procs.buf = [])
  ∧ (s.filtered.closed = true → s.mpc = MatchPC.done)
  ∧ (s.main.pastLoop = true → s.filtered.closed = true ∧ s.filtered.buf = [])

/-- The record `openProcs` sends for a pid, when it sends one. -/
def openedRecord (os : OS) (pid : Int) : Option Process :=
  match openOne os pid with
  | OpenStep.record p => some p
  | _ => none

/-- The records `openProcs` sends for a sequence of pids it gets through. -/
def recordsOf (os : OS) (pids : List Int) : List Process :=
  pids.filterMap (openedRecord os)

/-- The pids `listPIDs` has still to send. -/
def ListPC.ahead (os : OS) : ListPC → List Int
  | ListPC.readDir => (os.readDir.getD []).filterMap os.atoi
  | ListPC.loop files => files.filterMap os.atoi
  | ListPC.count pid files => pid :: files.filterMap os.atoi
  | ListPC.send pid files => pid :: files.filterMap os.atoi
  | ListPC.close => []
  | ListPC.done => []

/-- The pid `openProcs` has received and not yet looked at. -/
def OpenPC.heldPid : OpenPC → List Int
  | OpenPC.got pid => [pid]
  | _ => []

/-- The record `openProcs` has built and not yet sent. -/
def OpenPC.heldRec : OpenPC → List Process
  | OpenPC.send p => [p]
  | _ => []

/-- The record `matchProcs` has received and not yet tested. -/
def MatchPC.heldIn : MatchPC → List Process
  | MatchPC.scan p => [p]
  | MatchPC.test p => [p]
  | _ => []

/-- The record `matchProcs` has accepted and not yet sent. -/
def MatchPC.heldOut : MatchPC → List Process
  | MatchPC.count p => [p]
  | MatchPC.send p => [p]
  | _ => []

/-- The pids still to reach the loop body of `openProcs`, in order. -/
def pidsAhead (os : OS) (s : State) : List Int :=
  s.opc.heldPid ++ (s.pids.buf ++ s.lpc.ahead os)

/-- The records still to reach the test of `matchProcs`, in order, when no panic occurs. -/
def recsAhead (os : OS) (s : State) : List Process :=
  s.mpc.heldIn ++ (s.procs.buf ++ (s.opc.heldRec ++ recordsOf os (pidsAhead os s)))

/-- The records handed to workers so far, followed by those still to be handed to one
when no panic occurs. -/
def forwardedAhead (pattern : Bytes → Bool) (os : OS) (s : State) : List Process :=
  s.workers.map (fun w => w.proc) ++ (s.main.held ++ (s.filtered.buf ++ (s.mpc.heldOut ++
    (recsAhead os s).filter (matchCond pattern os.getpid))))

/-! ## Panics and the final tallies -/

/-- Whether the loop body of `openProcs` panics on a pid. -/
def isFatal (os : OS) (pid : Int) : Bool :=
  match openOne os pid with
  | OpenStep.fatal _ => true
  | _ => false

/-- Whether the loop body of `openProcs` drops a pid at line 48. -/
def isRestricted (os : OS) (pid : Int) : Bool :=
  match openOne os pid with
  | OpenStep.restricted => true
  | _ => false

/-- The pids `listPIDs` sends in a run without panic. -/
def allPids (os : OS) : List Int :=
  (os.readDir.getD []).filterMap os.atoi

/-- The records `matchProcs` forwards in a run without panic. -/
def forwarded (pattern : Bytes → Bool) (os : OS) : List Process :=
  (recordsOf os (allPids os)).filter (matchCond pattern os.getpid)

/-- One when `openProcs` is about to count a pid as restricted. -/
def OpenPC.dropping : OpenPC → Nat
  | OpenPC.restricted => 1
  | _ => 0

/-- One when `matchProcs` holds a record it has counted and not yet tested. -/
def MatchPC.scanned : MatchPC → Nat
  | MatchPC.test _ => 1
  | _ => 0

/-- A panic and the return of `main` exclude each other, and the summary is printed by
the last step of `main`. -/
def Exclusive (s : State) : Prop :=
  (s.aborted ≠ none → s.main ≠ MainPC.done)
  ∧ (∀ c, Event.summary c ∈ s.log → s.main = MainPC.done ∧ c = s.c)

/-- While no panic has occurred, the directory was read and no pid handled so far makes
`openProcs` panic. -/
def NoFatal (os : OS) (s : State) : Prop :=
  s.aborted = none →
    (s.lpc ≠ ListPC.readDir → os.readDir ≠ none)
    ∧ ((∀ pid ∈ pidsAhead os s, isFatal os pid = false) →
        ∀ pid ∈ allPids os, isFatal os pid = false)

/-- What the first three counters have reached, against what they reach in the end. -/
def Tally (os : OS) (s : State) : Prop :=
  s.c.nProcs + (s.lpc.ahead os).length = (allPids os).length + s.lpc.held
  ∧ s.c.nRestricted + s.opc.dropping + (pidsAhead os s).countP (isRestricted os)
      = (allPids os).countP (isRestricted os)
  ∧ s.c.nScanned + (recsAhead os s).length
      = (recordsOf os (allPids os)).length + s.mpc.scanned

/-- Every pid on its way to `openProcs` is one of the directory listing. -/
def AheadListed (os : OS) (s : State) : Prop :=
  ∀ pid ∈ pidsAhead os s, pid ∈ allPids os

/-- The only panics of the program are the two of lines 32 and 54, the second on a pid of
the directory listing. -/
def AbortCause (os : OS) (s : State) : Prop :=
  ∀ msg, s.aborted = some msg →
    (os.readDir = none ∧ msg = readDirPanic os)
    ∨ ∃ pid h, pid ∈ allPids os ∧ os.findProcess pid = some h
        ∧ os.readFile (cmdlinePath pid) = none ∧ openOne os pid = OpenStep.fatal msg

/-- The invariant of the concurrent program. -/
def Inv (pattern : Bytes → Bool) (os : OS) (s : State) : Prop :=
  Conserved s ∧ Cascade s ∧ WorkersOk os s.workers s.log ∧ Exclusive s ∧ NoFatal os s
    ∧ Tally os s ∧ forwardedAhead pattern os s = forwarded pattern os

/-! ## The sequential reading of the pipeline -/

/-- The loop of `listPIDs`, lines 34-40, on the directory entries: the counters after the
loop and the sequence sent on `pids`. -/
def listLoop (os : OS) : List String → Counters → Counters × List Int
  | [], c => (c, [])
  | f :: files, c =>
    match os.atoi f with
    | some pid =>
      let r := listLoop os files { c with nProcs := c.nProcs + 1 }
      (r.1, pid :: r.2)
    | none => listLoop os files c

/-- The function `listPIDs` (lines 29-42). -/
def listPIDs (os : OS) (c : Counters) : Except String (Counters × List Int) :=
  match os.readDir with
  | none => Except.error (readDirPanic os)
  | some files => Except.ok (listLoop os files c)

/-- The three pipeline stages one after the other: the counters at the end and the
records forwarded to `main`. -/
def pipeline (pattern : Bytes → Bool) (os : OS) (c : Counters) :
    Except String (Counters × List Process) :=
  match listPIDs os c with
  | Except.error msg => Except.error msg
  | Except.ok (c1, pids) =>
    match openProcs os pids c1 with
    | Except.error msg => Except.error msg
    | Except.ok (c2, recs) => Except.ok (matchProcs pattern os recs c2)

/-! ## A sample environment -/

/-- The bytes of a text. -/
def bytesOf (t : String) : Bytes := t.data.map Char.toNat

/-- An environment with four processes: pid 1 cannot be opened, pid 7 and pid 9 run
`victim-A` and `victim-B`, pid 12 is the running program itself. `Wait` on the handle of
pid 7 fails at once, on the handle of pid 9 it reports a process ended by a signal. -/
def demoOS : OS :=
  { readDir := some ["1", "self", "7", "9", "12"]
    readDirErr := ""
    atoi := fun t =>
      if t = "1" then some 1 else if t = "7" then some 7
      else if t = "9" then some 9 else if t = "12" then some 12 else none
    findProcess := fun pid => if pid = 1 then none else some ⟨pid⟩
    readFile := fun path =>
      if path = "/proc/7/cmdline" then some (bytesOf "victim-A")
      else if path = "/proc/9/cmdline" then some (bytesOf "victim-B")
      else if path = "/proc/12/cmdline" then some (bytesOf "murder victim")
      else none
    getpid := 12
    wait := fun h =>
      if h.Pid = 7 then WaitResult.returns none (some "wait: no child processes")
      else if h.Pid = 9 then WaitResult.returns (some ⟨9, false⟩) none
      else WaitResult.never
    kill := fun _ => none }

/-- The record of pid 7 in `demoOS`. -/
def victimA : Process := ⟨7, ⟨7⟩, bytesOf "victim-A"⟩

/-- The record of pid 9 in `demoOS`. -/
def victimB : Process := ⟨9, ⟨9⟩, bytesOf "victim-B"⟩

/-- The user pattern `victim`. -/
def demoPattern : Bytes → Bool := containsBytes (bytesOf "victim")


/-- The environment `demoOS` with a `Wait` that never returns. -/
def stubbornOS : OS := { demoOS with wait := fun _ => WaitResult.never }

/-- The environment `demoOS` where `Wait` on the handle of pid 7 fails at once and `Wait`
on every other handle never returns. -/
def mixedOS : OS :=
  { demoOS with
    wait := fun h =>
      if h.Pid = 7 then WaitResult.returns none (some "wait: no child processes")
      else WaitResult.never }

/-- The environment `demoOS` with no readable cmdline file. -/
def brokenOS : OS := { demoOS with readFile := fun _ => none }

/-- A schedule that runs the program on `demoOS` to the return of `main`, the goroutines
taking turns: pid 7 is handled to the end while `listPIDs` is still at work. -/
def demoSched : List Actor :=
  List.replicate 4 Actor.list ++ List.replicate 3 Actor.opener
  ++ List.replicate 4 Actor.list ++ List.replicate 3 Actor.opener
  ++ List.replicate 5 Actor.matcher ++ List.replicate 3 Actor.main
  ++ [Actor.killer 0, Actor.monitor 0, Actor.monitor 0, Actor.monitor 0, Actor.killer 0,
      Actor.monitor 0, Actor.monitor 0, Actor.killer 0, Actor.killer 0, Actor.killer 0]
  ++ List.replicate 3 Actor.list ++ List.replicate 3 Actor.opener
  ++ List.replicate 5 Actor.matcher ++ List.replicate 3 Actor.main
  ++ [Actor.killer 1, Actor.monitor 1, Actor.monitor 1, Actor.monitor 1, Actor.killer 1,
      Actor.monitor 1, Actor.monitor 1, Actor.killer 1, Actor.killer 1, Actor.killer 1]
  ++ List.replicate 3 Actor.list ++ List.replicate 3 Actor.opener
  ++ List.replicate 3 Actor.matcher ++ List.replicate 2 Actor.list
  ++ List.replicate 2 Actor.opener ++ List.replicate 2 Actor.matcher
  ++ List.replicate 3 Actor.main

/-! # Theorems -/

/-! ## The literal matcher -/

theorem startsWith_iff (n h : Bytes) : startsWith n h = true ↔ ∃ r, h = n ++ r := by
  induction n generalizing h with
  | nil => simp [startsWith]
  | cons a as ih =>
    cases h with
    | nil => simp [startsWith]
    | cons b bs =>
      simp only [startsWith, Bool.and_eq_true, beq_iff_eq, ih, List.cons_append, List.cons.injEq]
      constructor
      · rintro ⟨hab, r, hr⟩
        exact ⟨r, hab.symm, hr⟩
      · rintro ⟨r, hab, hr⟩
        exact ⟨hab.symm, r, hr⟩

theorem containsBytes_iff (n h : Bytes) :
    containsBytes n h = true ↔ ∃ l r, h = l ++ n ++ r := by
  induction h with
  | nil =>
    simp only [containsBytes, startsWith_iff]
    constructor
    · rintro ⟨r, hr⟩
      exact ⟨[], r, by simpa using hr⟩
    · rintro ⟨l, r, hr⟩
      have h1 : l = [] ∧ n = [] ∧ r = [] := by simpa using hr.symm
      exact ⟨[], by simp [h1.2.1]⟩
  | cons b bs ih =>
    simp only [containsBytes, Bool.or_eq_true, startsWith_iff, ih]
    constructor
    · rintro (⟨r, hr⟩ | ⟨l, r, hr⟩)
      · exact ⟨[], r, by simpa using hr⟩
      · exact ⟨b :: l, r, by simp [hr]⟩
    · rintro ⟨l, r, hr⟩
      cases l with
      | nil => exact Or.inl ⟨r, by simpa using hr⟩
      | cons x l2 =>
        right
        simp only [List.cons_append, List.cons.injEq] at hr
        exact ⟨l2, r, hr.2⟩

/-! ## matchProcs -/

theorem matchProcs_eq (pattern : Bytes → Bool) (os : OS) (inProcs : List Process) (c : Counters) :
    matchProcs pattern os inProcs c =
      ({ c with nScanned := c.nScanned + inProcs.length,
                nMatched := c.nMatched + (inProcs.filter (matchCond pattern os.getpid)).length },
       inProcs.filter (matchCond pattern os.getpid)) := by
  induction inProcs generalizing c with
  | nil => simp [matchProcs]
  | cons p rest ih =>
    by_cases hp : matchCond pattern os.getpid p = true
    · simp [matchProcs, hp, ih, Nat.add_assoc, Nat.add_comm 1]
    · simp [matchProcs, hp, ih, Nat.add_assoc, Nat.add_comm 1]

theorem matchCond_iff (pattern : Bytes → Bool) (localPid : Int) (r : Process) :
    matchCond pattern localPid r = true ↔
      pattern r.cmdline = true ∧ selfPattern r.cmdline = false ∧ r.pid ≠ localPid := by
  simp [matchCond, and_assoc]

/-- C1. `matchProcs` forwards exactly the records whose cmdline the user pattern matches,
whose cmdline does not contain the text "/usr/local/go/bin/go" and whose pid is not the
pid of the running process; the forwarded records keep their input order; `nScanned`
grows by the number of input records, `nMatched` by the number of forwarded records, and
no other counter changes. -/
theorem matchProcs_forwards_exactly (pattern : Bytes → Bool) (os : OS)
    (inProcs : List Process) (c : Counters) :
    (matchProcs pattern os inProcs c).2 =
        inProcs.filter (fun r => pattern r.cmdline && !selfPattern r.cmdline && r.pid != os.getpid)
    ∧ (∀ r, r ∈ (matchProcs pattern os inProcs c).2 ↔
        r ∈ inProcs ∧ pattern r.cmdline = true ∧ selfPattern r.cmdline = false ∧ r.pid ≠ os.getpid)
    ∧ List.Sublist (matchProcs pattern os inProcs c).2 inProcs
    ∧ (matchProcs pattern os inProcs c).1 =
        { c with nScanned := c.nScanned + inProcs.length,
                 nMatched := c.nMatched + (matchProcs pattern os inProcs c).2.length }
    ∧ (∀ b, selfPattern b = true ↔
        ∃ l r, b = l ++ "/usr/local/go/bin/go".data.map Char.toNat ++ r) := by
  refine ⟨?_, ?_, ?_, ?_, ?_⟩
  · rw [matchProcs_eq]; rfl
  · intro r
    rw [matchProcs_eq]
    simp only [List.mem_filter, matchCond_iff]
  · rw [matchProcs_eq]
    exact List.filter_sublist inProcs
  · rw [matchProcs_eq]
  · intro b
    exact containsBytes_iff selfPatternText b

/-! ## openProcs -/

theorem openOne_eq (os : OS) (pid : Int) :
    openOne os pid =
      match os.findProcess pid, os.readFile (cmdlinePath pid) with
      | none, _ => OpenStep.restricted
      | some _, none => OpenStep.fatal ("Error: could not open cmd of pid " ++ toString pid ++ "\n")
      | some h, some name => OpenStep.record ⟨pid, h, name⟩ := by
  unfold openOne
  cases os.findProcess pid <;> cases os.readFile (cmdlinePath pid) <;> rfl

theorem openProcs_error_iff (os : OS) (pids : List Int) (c : Counters) :
    (∃ msg, openProcs os pids c = Except.error msg) ↔
      ∃ pid ∈ pids, os.findProcess pid ≠ none ∧ os.readFile (cmdlinePath pid) = none := by
  induction pids generalizing c with
  | nil => simp [openProcs]
  | cons pid rest ih =>
    simp only [openProcs, openOne_eq, List.mem_cons, exists_eq_or_imp]
    cases hf : os.findProcess pid with
    | none => simpa using ih _
    | some h =>
      cases hr : os.readFile (cmdlinePath pid) with
      | none => simp
      | some name =>
        simp only [ne_eq, reduceCtorEq, not_false_eq_true, and_false, false_or]
        rw [← ih c]
        cases openProcs os rest c with
        | error e => simp
        | ok r => simp

theorem openProcs_ok (os : OS) (pids : List Int) (c : Counters)
    (h : ∀ pid ∈ pids, os.findProcess pid = none ∨ os.readFile (cmdlinePath pid) ≠ none) :
    openProcs os pids c = Except.ok
      ({ c with nRestricted := c.nRestricted + pids.countP (fun pid => (os.findProcess pid).isNone) },
       pids.filterMap (fun pid =>
          match os.findProcess pid, os.readFile (cmdlinePath pid) with
          | some h, some name => some ⟨pid, h, name⟩
          | _, _ => none)) := by
  induction pids generalizing c with
  | nil => simp [openProcs]
  | cons pid rest ih =>
    have hrest : ∀ q ∈ rest, os.findProcess q = none ∨ os.readFile (cmdlinePath q) ≠ none :=
      fun q hq => h q (List.mem_cons_of_mem _ hq)
    have hpid := h pid (List.mem_cons_self _ _)
    simp only [openProcs, openOne_eq]
    cases hf : os.findProcess pid with
    | none =>
      simp [ih _ hrest, hf, List.countP_cons, Nat.add_assoc, Nat.add_comm 1]
    | some hd =>
      cases hr : os.readFile (cmdlinePath pid) with
      | none => simp [hf, hr] at hpid
      | some name =>
        simp [ih _ hrest, hf, hr, List.countP_cons]

/-- C8. In `openProcs`, a pid whose `FindProcess` fails is dropped, adds one to
`nRestricted` and the loop goes on; a pid whose handle is acquired and whose cmdline file
cannot be read makes the call panic; the call panics exactly when the input holds such
a pid; otherwise the output is one record per pid that passed both steps, in input
order, and `nRestricted` has grown by the number of acquisition failures, no other
counter changing. -/
theorem openProcs_spec (os : OS) (pids : List Int) (c : Counters) :
    (∀ pid rest c0, os.findProcess pid = none →
        openProcs os (pid :: rest) c0 =
          openProcs os rest { c0 with nRestricted := c0.nRestricted + 1 })
    ∧ (∀ pid h rest c0, os.findProcess pid = some h → os.readFile (cmdlinePath pid) = none →
        ∃ msg, openProcs os (pid :: rest) c0 = Except.error msg)
    ∧ ((∃ msg, openProcs os pids c = Except.error msg) ↔
        ∃ pid ∈ pids, os.findProcess pid ≠ none ∧ os.readFile (cmdlinePath pid) = none)
    ∧ ((∀ pid ∈ pids, os.findProcess pid = none ∨ os.readFile (cmdlinePath pid) ≠ none) →
        openProcs os pids c = Except.ok
          ({ c with nRestricted :=
                c.nRestricted + pids.countP (fun pid => (os.findProcess pid).isNone) },
           pids.filterMap (fun pid =>
              match os.findProcess pid, os.readFile (cmdlinePath pid) with
              | some h, some name => some ⟨pid, h, name⟩
              | _, _ => none))) := by
  refine ⟨?_, ?_, openProcs_error_iff os pids c, openProcs_ok os pids c⟩
  · intro pid rest c0 hf
    simp [openProcs, openOne_eq, hf]
  · intro pid h rest c0 hf hr
    simp [openProcs, openOne_eq, hf, hr]

/-! ## exited and tryKill -/

theorem exited_none : exited none = Except.ok true := rfl

theorem exited_some (st : ProcessState) : exited (some st) = Except.ok st.reportsExited := by
  cases st with
  | mk pid b => cases b <;> rfl

theorem exited_eq (state : Option ProcessState) :
    exited state = Except.ok (didExitOf state) := by
  cases state with
  | none => exact exited_none
  | some st => exact exited_some st

theorem tryKill_returns (os : OS) (i : Nat) (proc : Process) (c : Counters)
    (state : Option ProcessState) (err : Option String)
    (hw : os.wait proc.proc = WaitResult.returns state err) :
    tryKill os i proc c =
      Result.ok
        ([Event.waitBegin i proc.proc, Event.waitReturn i proc.proc state, Event.recvFirst i,
          Event.kill i proc.proc, Event.recvState i state,
          Event.print i (reportLine proc (didExitOf state))],
         reportCount (didExitOf state) c) := by
  simp [tryKill, hw, exited_eq]

/-- C7. The function `exited` returns a boolean for every state pointer and lets no panic
through; reading a nil state panics, the deferred function recovers and the result is
`true`; so `tryKill` reports a process whose `Wait` gave no state as killed. -/
theorem exited_recovers :
    (∀ state, ∃ b, exited state = Except.ok b)
    ∧ (∃ p, ProcessState.Exited none = Except.error p)
    ∧ exited none = Except.ok true
    ∧ (∀ st, exited (some st) = Except.ok st.reportsExited)
    ∧ (∀ (os : OS) (i : Nat) (proc : Process) (c : Counters) (err : Option String),
        os.wait proc.proc = WaitResult.returns none err →
        tryKill os i proc c =
          Result.ok
            ([Event.waitBegin i proc.proc, Event.waitReturn i proc.proc none, Event.recvFirst i,
              Event.kill i proc.proc, Event.recvState i none,
              Event.print i (Line.killed proc.pid proc.cmdline)],
             { c with nKilled := c.nKilled + 1 })) := by
  refine ⟨fun state => ⟨_, exited_eq state⟩, ⟨_, rfl⟩, exited_none, exited_some, ?_⟩
  intro os i proc c err hw
  rw [tryKill_returns os i proc c none err hw]
  rfl

/-- C7, on the sample environment: `Wait` on the handle of pid 7 gives no state. -/
theorem exited_recovers_witness :
    demoOS.wait victimA.proc = WaitResult.returns none (some "wait: no child processes")
    ∧ tryKill demoOS 0 victimA Counters.zero =
        Result.ok
          ([Event.waitBegin 0 ⟨7⟩, Event.waitReturn 0 ⟨7⟩ none, Event.recvFirst 0,
            Event.kill 0 ⟨7⟩, Event.recvState 0 none,
            Event.print 0 (Line.killed 7 (bytesOf "victim-A"))],
           ⟨0, 0, 0, 0, 1, 0⟩) :=
  ⟨rfl, exited_recovers.2.2.2.2 demoOS 0 victimA Counters.zero _ rfl⟩

/-- C5, at the record of pid 9 of the sample environment: `Wait` on its handle returns a
state and no error, so the process has ended, and the state reports an end by signal
(`Exited()` is false); `tryKill` prints the `Could not kill` line and increments
`nProtected`, not `nKilled`. -/
theorem tryKill_signaled_state_not_killed :
    demoOS.wait victimB.proc = WaitResult.returns (some ⟨9, false⟩) none
    ∧ tryKill demoOS 0 victimB Counters.zero =
        Result.ok
          ([Event.waitBegin 0 ⟨9⟩, Event.waitReturn 0 ⟨9⟩ (some ⟨9, false⟩), Event.recvFirst 0,
            Event.kill 0 ⟨9⟩, Event.recvState 0 (some ⟨9, false⟩),
            Event.print 0 (Line.couldNot 9 (bytesOf "victim-B"))],
           ⟨0, 0, 0, 0, 0, 1⟩) :=
  ⟨rfl, rfl⟩

/-- What `tryKill` does when `Wait` returns a state and no error: it reports by the answer
of `Exited()`; if it is true the `Killed Process` line is printed and `nKilled` grows by
one, if it is false the `Could not kill` line is printed and `nProtected` grows by one. -/
theorem tryKill_state_by_exited (os : OS) (i : Nat) (proc : Process) (c : Counters)
    (st : ProcessState) (hw : os.wait proc.proc = WaitResult.returns (some st) none) :
    (st.reportsExited = true →
        tryKill os i proc c =
          Result.ok
            ([Event.waitBegin i proc.proc, Event.waitReturn i proc.proc (some st),
              Event.recvFirst i, Event.kill i proc.proc, Event.recvState i (some st),
              Event.print i (Line.killed proc.pid proc.cmdline)],
             { c with nKilled := c.nKilled + 1 }))
    ∧ (st.reportsExited = false →
        tryKill os i proc c =
          Result.ok
            ([Event.waitBegin i proc.proc, Event.waitReturn i proc.proc (some st),
              Event.recvFirst i, Event.kill i proc.proc, Event.recvState i (some st),
              Event.print i (Line.couldNot proc.pid proc.cmdline)],
             { c with nProtected := c.nProtected + 1 })) := by
  rw [tryKill_returns os i proc c (some st) none hw]
  constructor <;> intro hb <;> simp [reportLine, reportCount, didExitOf, hb]

/-- The report of `tryKill` on the sample environment at pid 9. -/
theorem tryKill_state_by_exited_witness :
    tryKill demoOS 0 victimB Counters.zero =
      Result.ok
        ([Event.waitBegin 0 ⟨9⟩, Event.waitReturn 0 ⟨9⟩ (some ⟨9, false⟩), Event.recvFirst 0,
          Event.kill 0 ⟨9⟩, Event.recvState 0 (some ⟨9, false⟩),
          Event.print 0 (Line.couldNot 9 (bytesOf "victim-B"))],
         ⟨0, 0, 0, 0, 0, 1⟩) :=
  (tryKill_state_by_exited demoOS 0 victimB Counters.zero ⟨9, false⟩ rfl).2 rfl

/-- C6, as stated, fails: in the sample environment `Wait` on the handle of pid 7 returns
an error and no state, and `tryKill` prints the `Killed Process` line and increments
`nKilled`, not `nProtected`. -/
theorem tryKill_wait_error_not_protected :
    demoOS.wait victimA.proc = WaitResult.returns none (some "wait: no child processes")
    ∧ tryKill demoOS 0 victimA Counters.zero =
        Result.ok
          ([Event.waitBegin 0 ⟨7⟩, Event.waitReturn 0 ⟨7⟩ none, Event.recvFirst 0,
            Event.kill 0 ⟨7⟩, Event.recvState 0 none,
            Event.print 0 (Line.killed 7 (bytesOf "victim-A"))],
           ⟨0, 0, 0, 0, 1, 0⟩) :=
  ⟨rfl, rfl⟩

/-- C6, amended. When `Wait` returns an error and no state, `tryKill` prints the
`Killed Process` line and increments `nKilled`, not `nProtected`; and whenever `tryKill`
prints the `Could not kill` line, `Wait` had returned a state whose `Exited()` is false. -/
theorem tryKill_wait_error_killed (os : OS) (i : Nat) (proc : Process) (c : Counters) :
    (∀ err, os.wait proc.proc = WaitResult.returns none (some err) →
        tryKill os i proc c =
          Result.ok
            ([Event.waitBegin i proc.proc, Event.waitReturn i proc.proc none, Event.recvFirst i,
              Event.kill i proc.proc, Event.recvState i none,
              Event.print i (Line.killed proc.pid proc.cmdline)],
             { c with nKilled := c.nKilled + 1 }))
    ∧ (∀ evs c2, tryKill os i proc c = Result.ok (evs, c2) →
        Event.print i (Line.couldNot proc.pid proc.cmdline) ∈ evs →
        ∃ st err, os.wait proc.proc = WaitResult.returns (some st) err
          ∧ st.reportsExited = false ∧ c2 = { c with nProtected := c.nProtected + 1 }) := by
  constructor
  · intro err hw
    rw [tryKill_returns os i proc c none (some err) hw]
    rfl
  · intro evs c2 hk hmem
    cases hw : os.wait proc.proc with
    | never => simp [tryKill, hw] at hk
    | returns state err =>
      rw [tryKill_returns os i proc c state err hw] at hk
      simp only [Result.ok.injEq, Prod.mk.injEq] at hk
      obtain ⟨hevs, hc⟩ := hk
      subst hevs
      cases state with
      | none => simp [reportLine, didExitOf] at hmem
      | some st =>
        cases hb : st.reportsExited with
        | true => simp [reportLine, didExitOf, hb] at hmem
        | false =>
          refine ⟨st, err, rfl, hb, ?_⟩
          rw [← hc]
          simp [reportCount, didExitOf, hb]

/-- C6, amended, on the sample environment at pid 7. -/
theorem tryKill_wait_error_killed_witness :
    tryKill demoOS 0 victimA Counters.zero =
      Result.ok
        ([Event.waitBegin 0 ⟨7⟩, Event.waitReturn 0 ⟨7⟩ none, Event.recvFirst 0,
          Event.kill 0 ⟨7⟩, Event.recvState 0 none,
          Event.print 0 (Line.killed 7 (bytesOf "victim-A"))],
         ⟨0, 0, 0, 0, 1, 0⟩) :=
  (tryKill_wait_error_killed demoOS 0 victimA Counters.zero).1 _ rfl

/-! ## The concurrent program: invariants -/

theorem run_inv (pattern : Bytes → Bool) (os : OS) (P : State → Prop)
    (hstep : ∀ a s s2, P s → stepOpt pattern os a s = some s2 → P s2)
    (sched : List Actor) (s : State) (h : P s) : P (run pattern os sched s) := by
  induction sched generalizing s with
  | nil => exact h
  | cons a rest ih =>
    apply ih
    unfold step
    cases hs : stepOpt pattern os a s with
    | none => exact h
    | some s2 => exact hstep a s s2 h hs

theorem countP_set_add {α : Type} (p : α → Bool) (l : List α) (i : Nat) (w w2 : α)
    (h : l[i]? = some w) :
    (l.set i w2).countP p + (if p w then 1 else 0) = l.countP p + (if p w2 then 1 else 0) := by
  induction l generalizing i with
  | nil => simp at h
  | cons x xs ih =>
    cases i with
    | zero =>
      simp only [List.getElem?_cons_zero, Option.some.injEq] at h
      subst h
      simp only [List.set_cons_zero, List.countP_cons]
      omega
    | succ j =>
      simp only [List.getElem?_cons_succ] at h
      have := ih j h
      simp only [List.set_cons_succ, List.countP_cons]
      omega

theorem countP_ge_of_getElem {α : Type} (p : α → Bool) (l : List α) (i : Nat) (w : α)
    (h : l[i]? = some w) : (if p w then 1 else 0) ≤ l.countP p := by
  induction l generalizing i with
  | nil => simp at h
  | cons x xs ih =>
    cases i with
    | zero =>
      simp only [List.getElem?_cons_zero, Option.some.injEq] at h
      subst h
      simp only [List.countP_cons]
      omega
    | succ j =>
      simp only [List.getElem?_cons_succ] at h
      have := ih j h
      simp only [List.countP_cons]
      omega

theorem countP_set_eq {α : Type} (p : α → Bool) (l : List α) (i : Nat) (w w2 : α)
    (h : l[i]? = some w) :
    (l.set i w2).countP p = l.countP p - (if p w then 1 else 0) + (if p w2 then 1 else 0) := by
  have h1 := countP_set_add p l i w w2 h
  have h2 := countP_ge_of_getElem p l i w h
  omega

theorem reportCount_nProcs (b : Bool) (c : Counters) : (reportCount b c).nProcs = c.nProcs := by
  cases b <;> rfl

theorem reportCount_nRestricted (b : Bool) (c : Counters) :
    (reportCount b c).nRestricted = c.nRestricted := by
  cases b <;> rfl

theorem reportCount_nScanned (b : Bool) (c : Counters) :
    (reportCount b c).nScanned = c.nScanned := by
  cases b <;> rfl

theorem reportCount_nMatched (b : Bool) (c : Counters) :
    (reportCount b c).nMatched = c.nMatched := by
  cases b <;> rfl

theorem reportCount_sum (b : Bool) (c : Counters) :
    (reportCount b c).nKilled + (reportCount b c).nProtected = c.nKilled + c.nProtected + 1 := by
  cases b <;> simp [reportCount] <;> omega

theorem conserved_step (pattern : Bytes → Bool) (os : OS) (a : Actor) (s s2 : State)
    (h : Conserved s) (hs : stepOpt pattern os a s = some s2) : Conserved s2 := by
  unfold stepOpt at hs
  split at hs
  · simp at hs
  · obtain ⟨h1, h2, h3, h4, h5, h6⟩ := h
    cases a with
    | list =>
      simp only [stepList] at hs
      split at hs <;> (try split at hs) <;> simp at hs <;> subst hs <;>
        simp_all [Conserved, ListPC.held] <;> omega
    | opener =>
      simp only [stepOpen] at hs
      split at hs <;> (try split at hs) <;> (try split at hs) <;> simp at hs <;> subst hs <;>
        simp_all [Conserved, OpenPC.held] <;> omega
    | matcher =>
      simp only [stepMatch] at hs
      split at hs <;> (try split at hs) <;> (try split at hs) <;> simp at hs <;> subst hs <;>
        simp_all [Conserved, MatchPC.unscanned, MatchPC.undecided, MatchPC.sending] <;> omega
    | main =>
      simp only [stepMain] at hs
      split at hs <;> (try split at hs) <;> (try split at hs) <;> simp at hs <;> subst hs <;>
        simp_all [Conserved, MainPC.held, MainPC.added, MainPC.pastWait, KillPC.live,
          KillPC.counted]
      all_goals omega
    | killer i =>
      simp only [stepKiller] at hs
      split at hs
      · simp at hs
      · rename_i w hw
        have m4 := countP_ge_of_getElem (fun w => w.kpc.counted) s.workers i w hw
        have m5 := countP_ge_of_getElem (fun w => w.kpc.live) s.workers i w hw
        cases hk : w.kpc <;> simp only [hk] at hs m4 m5 <;> (try split at hs) <;> simp at hs <;>
          subst hs <;> refine ⟨?_, ?_, ?_, ?_, ?_, ?_⟩ <;>
          (try (intro hp; have h6 := h6 hp)) <;>
          simp only [List.length_set, countP_set_eq _ _ _ _ _ hw, reportCount_nProcs,
            reportCount_nRestricted, reportCount_nScanned, reportCount_nMatched,
            reportCount_sum, hk, KillPC.counted, KillPC.live, if_true, if_false,
            Bool.false_eq_true] at * <;> omega
    | monitor i =>
      simp only [stepMonitor] at hs
      split at hs
      · simp at hs
      · rename_i w hw
        have m4 := countP_ge_of_getElem (fun w => w.kpc.counted) s.workers i w hw
        have m5 := countP_ge_of_getElem (fun w => w.kpc.live) s.workers i w hw
        cases hm : w.mpc <;> simp only [hm] at hs <;> (try split at hs) <;> simp at hs <;>
          subst hs <;> refine ⟨?_, ?_, ?_, ?_, ?_, ?_⟩ <;>
          (try (intro hp; have h6 := h6 hp)) <;>
          simp only [List.length_set, countP_set_eq _ _ _ _ _ hw, KillPC.counted, KillPC.live,
            if_true, if_false, Bool.false_eq_true, *] at * <;> omega
theorem cascade_step (pattern : Bytes → Bool) (os : OS) (a : Actor) (s s2 : State)
    (h : Cascade s) (hs : stepOpt pattern os a s = some s2) : Cascade s2 := by
  unfold stepOpt at hs
  split at hs
  · simp at hs
  · obtain ⟨h1, h2, h3, h4, h5, h6⟩ := h
    cases a with
    | list =>
      simp only [stepList] at hs
      split at hs <;> (try split at hs) <;> simp at hs <;> subst hs <;>
        simp_all [Cascade]
    | opener =>
      simp only [stepOpen] at hs
      split at hs <;> (try split at hs) <;> (try split at hs) <;> simp at hs <;> subst hs <;>
        simp_all [Cascade]
    | matcher =>
      simp only [stepMatch] at hs
      split at hs <;> (try split at hs) <;> (try split at hs) <;> simp at hs <;> subst hs <;>
        simp_all [Cascade]
    | main =>
      simp only [stepMain] at hs
      split at hs <;> (try split at hs) <;> (try split at hs) <;> simp at hs <;> subst hs <;>
        simp_all [Cascade, MainPC.pastLoop]
    | killer i =>
      simp only [stepKiller] at hs
      split at hs
      · simp at hs
      · split at hs <;> (try split at hs) <;> simp at hs <;> subst hs <;>
          exact ⟨h1, h2, h3, h4, h5, h6⟩
    | monitor i =>
      simp only [stepMonitor] at hs
      split at hs
      · simp at hs
      · split at hs <;> (try split at hs) <;> simp at hs <;> subst hs <;>
          exact ⟨h1, h2, h3, h4, h5, h6⟩

theorem map_set_proc (l : List Worker) (i : Nat) (w w2 : Worker) (h : l[i]? = some w)
    (hp : w2.proc = w.proc) :
    (l.set i w2).map (fun w => w.proc) = l.map (fun w => w.proc) := by
  induction l generalizing i with
  | nil => simp
  | cons x xs ih =>
    cases i with
    | zero =>
      simp only [List.getElem?_cons_zero, Option.some.injEq] at h
      subst h
      simp [hp]
    | succ j =>
      simp only [List.getElem?_cons_succ] at h
      simp [ih j h]

theorem forwardedAhead_step (pattern : Bytes → Bool) (os : OS) (a : Actor) (s s2 : State)
    (hs : stepOpt pattern os a s = some s2) :
    forwardedAhead pattern os s2 = forwardedAhead pattern os s := by
  unfold stepOpt at hs
  split at hs
  · simp at hs
  · cases a with
    | list =>
      simp only [stepList] at hs
      split at hs <;> (try split at hs) <;> simp at hs <;> subst hs <;>
        simp_all [forwardedAhead, recsAhead, pidsAhead, ListPC.ahead]
    | opener =>
      simp only [stepOpen] at hs
      split at hs <;> (try split at hs) <;> (try split at hs) <;> simp at hs <;> subst hs <;>
        simp_all [forwardedAhead, recsAhead, pidsAhead, OpenPC.heldPid, OpenPC.heldRec, recordsOf,
          openedRecord]
    | matcher =>
      simp only [stepMatch] at hs
      split at hs <;> (try split at hs) <;> (try split at hs) <;> simp at hs <;> subst hs <;>
        simp_all [forwardedAhead, recsAhead, pidsAhead, MatchPC.heldIn, MatchPC.heldOut]
    | main =>
      simp only [stepMain] at hs
      split at hs <;> (try split at hs) <;> (try split at hs) <;> simp at hs <;> subst hs <;>
        simp_all [forwardedAhead, recsAhead, pidsAhead, MainPC.held]
    | killer i =>
      simp only [stepKiller] at hs
      split at hs
      · simp at hs
      · rename_i w hw
        split at hs <;> (try split at hs) <;> simp at hs <;> subst hs <;>
          simp [forwardedAhead, recsAhead, pidsAhead, map_set_proc _ _ _ _ hw]
    | monitor i =>
      simp only [stepMonitor] at hs
      split at hs
      · simp at hs
      · rename_i w hw
        split at hs <;> (try split at hs) <;> simp at hs <;> subst hs <;>
          simp [forwardedAhead, recsAhead, pidsAhead, map_set_proc _ _ _ _ hw]

theorem eventsOf_append (i : Nat) (l1 l2 : List Event) :
    eventsOf i (l1 ++ l2) = eventsOf i l1 ++ eventsOf i l2 := by
  simp [eventsOf]

theorem eventsOf_other (i : Nat) (e : Event) (h : e.worker ≠ some i) : eventsOf i [e] = [] := by
  simp [eventsOf, h]

theorem eventsOf_own (i : Nat) (e : Event) (h : e.worker = some i) : eventsOf i [e] = [e] := by
  simp [eventsOf, h]

theorem workersOk_update (os : OS) (ws : List Worker) (log : List Event) (i : Nat)
    (w w2 : Worker) (evs : List Event) (h : WorkersOk os ws log) (hw : ws[i]? = some w)
    (hev : ∀ e ∈ evs, e.worker = some i) (hp : w2.proc = w.proc)
    (ht : ∀ n, w.progress os = some n → w2.progress os = some (n + evs.length)
      ∧ (script os i w.proc).take (n + evs.length) = (script os i w.proc).take n ++ evs) :
    WorkersOk os (ws.set i w2) (log ++ evs) := by
  obtain ⟨h1, h2⟩ := h
  have hi : i < ws.length := by
    rcases Nat.lt_or_ge i ws.length with hlt | hge
    · exact hlt
    · rw [List.getElem?_eq_none hge] at hw
      cases hw
  constructor
  · intro j wj hj
    by_cases hij : i = j
    · subst hij
      rw [List.getElem?_set_self hi] at hj
      cases hj
      obtain ⟨n, hn, hlog⟩ := h1 i w hw
      obtain ⟨hn2, htake⟩ := ht n hn
      refine ⟨n + evs.length, hn2, ?_⟩
      rw [hp, htake, eventsOf_append, hlog]
      congr 1
      simp only [eventsOf, List.filter_eq_self, beq_iff_eq]
      exact hev
    · rw [List.getElem?_set_ne hij] at hj
      obtain ⟨n, hn, hlog⟩ := h1 j wj hj
      refine ⟨n, hn, ?_⟩
      rw [eventsOf_append, hlog]
      have : eventsOf j evs = [] := by
        simp only [eventsOf, List.filter_eq_nil_iff, beq_iff_eq]
        intro e he hej
        have := hev e he
        rw [this] at hej
        exact hij (Option.some.inj hej)
      rw [this, List.append_nil]
  · intro e he j hej
    rw [List.length_set]
    rcases List.mem_append.1 he with he | he
    · exact h2 e he j hej
    · have := hev e he
      rw [this] at hej
      cases hej
      exact hi

theorem workersOk_spawn (os : OS) (ws : List Worker) (log : List Event) (p : Process)
    (h : WorkersOk os ws log) :
    WorkersOk os (ws ++ [⟨p, KillPC.monitor, MonitorPC.idle⟩]) log := by
  obtain ⟨h1, h2⟩ := h
  constructor
  · intro j wj hj
    rcases Nat.lt_trichotomy j ws.length with hlt | heq | hgt
    · rw [List.getElem?_append_left hlt] at hj
      exact h1 j wj hj
    · subst heq
      simp only [List.getElem?_concat_length, Option.some.injEq] at hj
      subst hj
      refine ⟨0, by simp [Worker.progress], ?_⟩
      simp only [List.take_zero, eventsOf, List.filter_eq_nil_iff, beq_iff_eq]
      intro e he hej
      exact Nat.lt_irrefl _ (h2 e he _ hej)
    · rw [List.getElem?_eq_none (by simp; omega)] at hj
      cases hj
  · intro e he j hej
    have := h2 e he j hej
    simp only [List.length_append, List.length_singleton]
    omega

theorem workersOk_summary (os : OS) (ws : List Worker) (log : List Event) (c : Counters)
    (h : WorkersOk os ws log) : WorkersOk os ws (log ++ [Event.summary c]) := by
  obtain ⟨h1, h2⟩ := h
  constructor
  · intro j wj hj
    obtain ⟨n, hn, hlog⟩ := h1 j wj hj
    refine ⟨n, hn, ?_⟩
    rw [eventsOf_append, hlog, eventsOf_other j _ (by simp [Event.worker]), List.append_nil]
  · intro e he j hej
    rcases List.mem_append.1 he with he | he
    · exact h2 e he j hej
    · simp only [List.mem_singleton] at he
      subst he
      simp [Event.worker] at hej

theorem progress_start (os : OS) (i : Nat) (proc : Process) (mpc : MonitorPC) (n : Nat)
    (hn : Worker.progress os ⟨proc, KillPC.monitor, mpc⟩ = some n) :
    Worker.progress os ⟨proc, KillPC.recvFirst, MonitorPC.wait⟩ = some (n + ([] : List Event).length)
    ∧ (script os i proc).take (n + ([] : List Event).length) = (script os i proc).take n ++ [] := by
  cases mpc <;> simp [Worker.progress] at hn ⊢
  subst hn
  simp

theorem progress_kill (os : OS) (i : Nat) (proc : Process) (mpc : MonitorPC) (n : Nat)
    (hn : Worker.progress os ⟨proc, KillPC.kill, mpc⟩ = some n) :
    Worker.progress os ⟨proc, KillPC.recvState, mpc⟩ = some (n + [Event.kill i proc.proc].length)
    ∧ (script os i proc).take (n + [Event.kill i proc.proc].length)
        = (script os i proc).take n ++ [Event.kill i proc.proc] := by
  cases mpc <;> cases hwt : os.wait proc.proc <;>
    simp_all [Worker.progress, script, WaitResult.state]
  all_goals (obtain ⟨_, hn⟩ := hn; subst hn; simp)

theorem progress_classify (os : OS) (i : Nat) (proc : Process) (mpc : MonitorPC)
    (st : Option ProcessState) (n : Nat)
    (hn : Worker.progress os ⟨proc, KillPC.classify st, mpc⟩ = some n) :
    Worker.progress os ⟨proc, KillPC.add (didExitOf st), mpc⟩
        = some (n + [Event.print i (reportLine proc (didExitOf st))].length)
    ∧ (script os i proc).take (n + [Event.print i (reportLine proc (didExitOf st))].length)
        = (script os i proc).take n ++ [Event.print i (reportLine proc (didExitOf st))] := by
  cases hwt : os.wait proc.proc <;>
    simp_all [Worker.progress, script, WaitResult.state]
  obtain ⟨⟨_, h1⟩, hn⟩ := hn
  subst hn
  subst h1
  simp

theorem progress_add (os : OS) (i : Nat) (proc : Process) (mpc : MonitorPC) (b : Bool) (n : Nat)
    (hn : Worker.progress os ⟨proc, KillPC.add b, mpc⟩ = some n) :
    Worker.progress os ⟨proc, KillPC.wgDone, mpc⟩ = some (n + ([] : List Event).length)
    ∧ (script os i proc).take (n + ([] : List Event).length) = (script os i proc).take n ++ [] := by
  cases hwt : os.wait proc.proc <;>
    simp_all [Worker.progress, script, WaitResult.state]

theorem progress_wgDone (os : OS) (i : Nat) (proc : Process) (mpc : MonitorPC) (n : Nat)
    (hn : Worker.progress os ⟨proc, KillPC.wgDone, mpc⟩ = some n) :
    Worker.progress os ⟨proc, KillPC.done, mpc⟩ = some (n + ([] : List Event).length)
    ∧ (script os i proc).take (n + ([] : List Event).length) = (script os i proc).take n ++ [] := by
  cases hwt : os.wait proc.proc <;>
    simp_all [Worker.progress, script, WaitResult.state]

theorem progress_waitBegin (os : OS) (i : Nat) (proc : Process) (kpc : KillPC) (n : Nat)
    (hn : Worker.progress os ⟨proc, kpc, MonitorPC.wait⟩ = some n) :
    Worker.progress os ⟨proc, kpc, MonitorPC.waiting⟩
        = some (n + [Event.waitBegin i proc.proc].length)
    ∧ (script os i proc).take (n + [Event.waitBegin i proc.proc].length)
        = (script os i proc).take n ++ [Event.waitBegin i proc.proc] := by
  cases kpc <;> cases hwt : os.wait proc.proc <;>
    simp_all [Worker.progress, script, WaitResult.state, MonitorPC.finished]
  all_goals (subst hn; simp)

theorem progress_waitReturn (os : OS) (i : Nat) (proc : Process) (kpc : KillPC)
    (st : Option ProcessState) (err : Option String) (n : Nat)
    (hwt : os.wait proc.proc = WaitResult.returns st err)
    (hn : Worker.progress os ⟨proc, kpc, MonitorPC.waiting⟩ = some n) :
    Worker.progress os ⟨proc, kpc, MonitorPC.sendNil st⟩
        = some (n + [Event.waitReturn i proc.proc st].length)
    ∧ (script os i proc).take (n + [Event.waitReturn i proc.proc st].length)
        = (script os i proc).take n ++ [Event.waitReturn i proc.proc st] := by
  cases kpc <;>
    simp_all [Worker.progress, script, WaitResult.state, MonitorPC.finished]
  all_goals (subst hn; simp)

theorem progress_sendNil (os : OS) (i : Nat) (proc : Process)
    (st : Option ProcessState) (n : Nat)
    (hn : Worker.progress os ⟨proc, KillPC.recvFirst, MonitorPC.sendNil st⟩ = some n) :
    Worker.progress os ⟨proc, KillPC.kill, MonitorPC.sendState st⟩
        = some (n + [Event.recvFirst i].length)
    ∧ (script os i proc).take (n + [Event.recvFirst i].length)
        = (script os i proc).take n ++ [Event.recvFirst i] := by
  cases hwt : os.wait proc.proc <;>
    simp_all [Worker.progress, script, WaitResult.state, MonitorPC.finished]
  all_goals (obtain ⟨_, hn⟩ := hn; subst hn; simp)

theorem progress_sendState (os : OS) (i : Nat) (proc : Process)
    (st : Option ProcessState) (n : Nat)
    (hn : Worker.progress os ⟨proc, KillPC.recvState, MonitorPC.sendState st⟩ = some n) :
    Worker.progress os ⟨proc, KillPC.classify st, MonitorPC.close⟩
        = some (n + [Event.recvState i st].length)
    ∧ (script os i proc).take (n + [Event.recvState i st].length)
        = (script os i proc).take n ++ [Event.recvState i st] := by
  cases hwt : os.wait proc.proc <;>
    simp_all [Worker.progress, script, WaitResult.state, MonitorPC.finished]
  all_goals (obtain ⟨h1, hn⟩ := hn; subst hn; subst h1; simp)

theorem progress_close (os : OS) (i : Nat) (proc : Process) (kpc : KillPC) (n : Nat)
    (hn : Worker.progress os ⟨proc, kpc, MonitorPC.close⟩ = some n) :
    Worker.progress os ⟨proc, kpc, MonitorPC.done⟩ = some (n + ([] : List Event).length)
    ∧ (script os i proc).take (n + ([] : List Event).length) = (script os i proc).take n ++ [] := by
  cases kpc <;> cases hwt : os.wait proc.proc <;>
    simp_all [Worker.progress, script, WaitResult.state, MonitorPC.finished]

theorem workersOk_step (pattern : Bytes → Bool) (os : OS) (a : Actor) (s s2 : State)
    (h : WorkersOk os s.workers s.log) (hs : stepOpt pattern os a s = some s2) :
    WorkersOk os s2.workers s2.log := by
  unfold stepOpt at hs
  split at hs
  · simp at hs
  · cases a with
    | list =>
      simp only [stepList] at hs
      split at hs <;> (try split at hs) <;> simp at hs <;> subst hs <;> exact h
    | opener =>
      simp only [stepOpen] at hs
      split at hs <;> (try split at hs) <;> (try split at hs) <;> simp at hs <;> subst hs <;>
        exact h
    | matcher =>
      simp only [stepMatch] at hs
      split at hs <;> (try split at hs) <;> (try split at hs) <;> simp at hs <;> subst hs <;>
        exact h
    | main =>
      simp only [stepMain] at hs
      split at hs <;> (try split at hs) <;> (try split at hs) <;> simp at hs <;> subst hs <;>
        first
        | exact h
        | exact workersOk_spawn os _ _ _ h
        | exact workersOk_summary os _ _ _ h
    | killer i =>
      simp only [stepKiller] at hs
      split at hs
      · simp at hs
      · rename_i w hw
        rcases w with ⟨proc, kpc, mpc⟩
        cases kpc with
        | monitor =>
          simp at hs
          subst hs
          have := workersOk_update os s.workers s.log i _ ⟨proc, KillPC.recvFirst, MonitorPC.wait⟩
            [] h hw (by simp) rfl (progress_start os i proc mpc)
          simpa using this
        | recvFirst => simp at hs
        | kill =>
          simp at hs
          subst hs
          exact workersOk_update os s.workers s.log i _ ⟨proc, KillPC.recvState, mpc⟩
            [Event.kill i proc.proc] h hw (by simp [Event.worker]) rfl (progress_kill os i proc mpc)
        | recvState => simp at hs
        | classify st =>
          simp [exited_eq] at hs
          subst hs
          exact workersOk_update os s.workers s.log i _ ⟨proc, KillPC.add (didExitOf st), mpc⟩
            [Event.print i (reportLine proc (didExitOf st))] h hw (by simp [Event.worker]) rfl
            (progress_classify os i proc mpc st)
        | add b =>
          simp at hs
          subst hs
          have := workersOk_update os s.workers s.log i _ ⟨proc, KillPC.wgDone, mpc⟩
            [] h hw (by simp) rfl (progress_add os i proc mpc b)
          simpa using this
        | wgDone =>
          simp only at hs
          split at hs <;> simp at hs <;> subst hs
          · exact h
          · have := workersOk_update os s.workers s.log i _ ⟨proc, KillPC.done, mpc⟩
              [] h hw (by simp) rfl (progress_wgDone os i proc mpc)
            simpa using this
        | done => simp at hs
    | monitor i =>
      simp only [stepMonitor] at hs
      split at hs
      · simp at hs
      · rename_i w hw
        rcases w with ⟨proc, kpc, mpc⟩
        cases mpc with
        | idle => simp at hs
        | wait =>
          simp at hs
          subst hs
          exact workersOk_update os s.workers s.log i _ ⟨proc, kpc, MonitorPC.waiting⟩
            [Event.waitBegin i proc.proc] h hw (by simp [Event.worker]) rfl
            (progress_waitBegin os i proc kpc)
        | waiting =>
          simp only at hs
          split at hs
          · simp at hs
          · rename_i st err hwt
            simp at hs
            subst hs
            exact workersOk_update os s.workers s.log i _ ⟨proc, kpc, MonitorPC.sendNil st⟩
              [Event.waitReturn i proc.proc st] h hw (by simp [Event.worker]) rfl
              (fun n => progress_waitReturn os i proc kpc st err n hwt)
        | sendNil st =>
          simp only at hs
          split at hs
          · rename_i hk
            subst hk
            simp at hs
            subst hs
            exact workersOk_update os s.workers s.log i _
              ⟨proc, KillPC.kill, MonitorPC.sendState st⟩
              [Event.recvFirst i] h hw (by simp [Event.worker]) rfl
              (progress_sendNil os i proc st)
          · simp at hs
        | sendState st =>
          simp only at hs
          split at hs
          · rename_i hk
            subst hk
            simp at hs
            subst hs
            exact workersOk_update os s.workers s.log i _
              ⟨proc, KillPC.classify st, MonitorPC.close⟩
              [Event.recvState i st] h hw (by simp [Event.worker]) rfl
              (progress_sendState os i proc st)
          · simp at hs
        | close =>
          simp at hs
          subst hs
          have := workersOk_update os s.workers s.log i _ ⟨proc, kpc, MonitorPC.done⟩
            [] h hw (by simp) rfl (progress_close os i proc kpc)
          simpa using this
        | done => simp at hs

theorem exclusive_step (pattern : Bytes → Bool) (os : OS) (a : Actor) (s s2 : State)
    (h : Exclusive s) (hs : stepOpt pattern os a s = some s2) : Exclusive s2 := by
  unfold stepOpt at hs
  split at hs
  · simp at hs
  · rename_i hg
    simp only [not_or, not_not] at hg
    obtain ⟨hg1, hg2⟩ := hg
    have h3 : ∀ c, Event.summary c ∉ s.log := fun c hc => hg2 (h.2 c hc).1
    clear h
    cases a with
    | list =>
      simp only [stepList] at hs
      split at hs <;> (try split at hs) <;> simp at hs <;> subst hs <;>
        simp_all [Exclusive]
    | opener =>
      simp only [stepOpen] at hs
      split at hs <;> (try split at hs) <;> (try split at hs) <;> simp at hs <;> subst hs <;>
        simp_all [Exclusive]
    | matcher =>
      simp only [stepMatch] at hs
      split at hs <;> (try split at hs) <;> (try split at hs) <;> simp at hs <;> subst hs <;>
        simp_all [Exclusive]
    | main =>
      simp only [stepMain] at hs
      split at hs <;> (try split at hs) <;> (try split at hs) <;> simp at hs <;> subst hs <;>
        simp_all [Exclusive]
    | killer i =>
      simp only [stepKiller] at hs
      split at hs
      · simp at hs
      · split at hs <;> (try split at hs) <;> simp at hs <;> subst hs <;>
          simp_all [Exclusive]
    | monitor i =>
      simp only [stepMonitor] at hs
      split at hs
      · simp at hs
      · split at hs <;> (try split at hs) <;> simp at hs <;> subst hs <;>
          simp_all [Exclusive]

theorem noFatal_of_subset (os : OS) (s s2 : State) (h : NoFatal os s) (ha : s.aborted = none)
    (hl : s2.lpc ≠ ListPC.readDir → os.readDir ≠ none)
    (hsub : ∀ pid ∈ pidsAhead os s, pid ∈ pidsAhead os s2 ∨ isFatal os pid = false) :
    NoFatal os s2 := by
  intro _
  refine ⟨hl, fun hall => (h ha).2 ?_⟩
  intro pid hp
  rcases hsub pid hp with h1 | h1
  · exact hall pid h1
  · exact h1

theorem noFatal_step (pattern : Bytes → Bool) (os : OS) (a : Actor) (s s2 : State)
    (h : NoFatal os s) (hs : stepOpt pattern os a s = some s2) : NoFatal os s2 := by
  unfold stepOpt at hs
  split at hs
  · simp at hs
  · rename_i hg
    simp only [not_or, not_not] at hg
    obtain ⟨hg1, hg2⟩ := hg
    have hl := (h hg1).1
    cases a with
    | list =>
      simp only [stepList] at hs
      split at hs <;> (try split at hs) <;> simp at hs <;> subst hs <;>
        first
        | (intro hab; simp at hab; done)
        | (apply noFatal_of_subset os s _ h hg1
           · simp_all
           · intro pid hp
             left
             simp_all [pidsAhead, ListPC.ahead])
    | opener =>
      simp only [stepOpen] at hs
      split at hs <;> (try split at hs) <;> (try split at hs) <;> simp at hs <;> subst hs <;>
        first
        | (intro hab; simp at hab; done)
        | (apply noFatal_of_subset os s _ h hg1
           · simp_all
           · intro pid hp
             simp_all [pidsAhead, OpenPC.heldPid, isFatal]
             try (rcases hp with hp | hp
                  · subst hp
                    right
                    simp [*]
                  · left
                    exact hp))
    | matcher =>
      simp only [stepMatch] at hs
      split at hs <;> (try split at hs) <;> (try split at hs) <;> simp at hs <;> subst hs <;>
        exact h
    | main =>
      simp only [stepMain] at hs
      split at hs <;> (try split at hs) <;> (try split at hs) <;> simp at hs <;> subst hs <;>
        exact h
    | killer i =>
      simp only [stepKiller] at hs
      split at hs
      · simp at hs
      · split at hs <;> (try split at hs) <;> simp at hs <;> subst hs <;>
          first
          | exact h
          | (intro hab; simp at hab)
    | monitor i =>
      simp only [stepMonitor] at hs
      split at hs
      · simp at hs
      · split at hs <;> (try split at hs) <;> simp at hs <;> subst hs <;>
          exact h

theorem tally_step (pattern : Bytes → Bool) (os : OS) (a : Actor) (s s2 : State)
    (h : Tally os s) (hs : stepOpt pattern os a s = some s2) : Tally os s2 := by
  unfold stepOpt at hs
  split at hs
  · simp at hs
  · obtain ⟨h1, h2, h3⟩ := h
    cases a with
    | list =>
      simp only [stepList] at hs
      split at hs <;> (try split at hs) <;> simp at hs <;> subst hs <;>
        simp_all [Tally, pidsAhead, recsAhead, ListPC.ahead, ListPC.held, allPids, recordsOf] <;>
        omega
    | opener =>
      simp only [stepOpen] at hs
      split at hs <;> (try split at hs) <;> (try split at hs) <;> simp at hs <;> subst hs <;>
        simp_all [Tally, pidsAhead, recsAhead, OpenPC.heldPid, OpenPC.heldRec, OpenPC.dropping,
          recordsOf, openedRecord, isRestricted, List.countP_cons]
      all_goals omega
    | matcher =>
      simp only [stepMatch] at hs
      split at hs <;> (try split at hs) <;> (try split at hs) <;> simp at hs <;> subst hs <;>
        simp_all [Tally, pidsAhead, recsAhead, MatchPC.heldIn, MatchPC.scanned] <;> omega
    | main =>
      simp only [stepMain] at hs
      split at hs <;> (try split at hs) <;> (try split at hs) <;> simp at hs <;> subst hs <;>
        exact ⟨h1, h2, h3⟩
    | killer i =>
      simp only [stepKiller] at hs
      split at hs
      · simp at hs
      · split at hs <;> (try split at hs) <;> simp at hs <;> subst hs <;>
          first
          | exact ⟨h1, h2, h3⟩
          | (simp only [Tally, reportCount_nProcs, reportCount_nRestricted, reportCount_nScanned]
             exact ⟨h1, h2, h3⟩)
    | monitor i =>
      simp only [stepMonitor] at hs
      split at hs
      · simp at hs
      · split at hs <;> (try split at hs) <;> simp at hs <;> subst hs <;>
          exact ⟨h1, h2, h3⟩

theorem inv_init (pattern : Bytes → Bool) (os : OS) : Inv pattern os init := by
  refine ⟨?_, ?_, ?_, ?_, ?_, ?_, ?_⟩
  · simp [Conserved, init, Counters.zero, ListPC.held, OpenPC.held, MatchPC.unscanned,
      MatchPC.undecided, MatchPC.sending, MainPC.held, MainPC.added, MainPC.pastWait]
  · simp [Cascade, init, MainPC.pastLoop]
  · simp [WorkersOk, init]
  · simp [Exclusive, init]
  · intro _
    simp [init, pidsAhead, OpenPC.heldPid, ListPC.ahead, allPids]
  · simp [Tally, init, Counters.zero, pidsAhead, recsAhead, OpenPC.heldPid, OpenPC.heldRec,
      OpenPC.dropping, ListPC.ahead, ListPC.held, MatchPC.heldIn, MatchPC.scanned, allPids,
      recordsOf]
  · simp [forwardedAhead, forwarded, init, pidsAhead, recsAhead, OpenPC.heldPid, OpenPC.heldRec,
      ListPC.ahead, MatchPC.heldIn, MatchPC.heldOut, MainPC.held, allPids]

theorem inv_step (pattern : Bytes → Bool) (os : OS) (a : Actor) (s s2 : State)
    (h : Inv pattern os s) (hs : stepOpt pattern os a s = some s2) : Inv pattern os s2 := by
  obtain ⟨h1, h2, h3, h4, h5, h6, h7⟩ := h
  exact ⟨conserved_step pattern os a s s2 h1 hs, cascade_step pattern os a s s2 h2 hs,
    workersOk_step pattern os a s s2 h3 hs, exclusive_step pattern os a s s2 h4 hs,
    noFatal_step pattern os a s s2 h5 hs, tally_step pattern os a s s2 h6 hs,
    (forwardedAhead_step pattern os a s s2 hs).trans h7⟩

theorem inv_run (pattern : Bytes → Bool) (os : OS) (sched : List Actor) :
    Inv pattern os (run pattern os sched init) :=
  run_inv pattern os (Inv pattern os) (inv_step pattern os) sched init (inv_init pattern os)

/-! ## The sequential pipeline in closed form -/

theorem listLoop_eq (os : OS) (files : List String) (c : Counters) :
    listLoop os files c =
      ({ c with nProcs := c.nProcs + (files.filterMap os.atoi).length }, files.filterMap os.atoi) := by
  induction files generalizing c with
  | nil => simp [listLoop]
  | cons f fs ih =>
    cases hf : os.atoi f with
    | none => simp [listLoop, hf, ih]
    | some pid => simp [listLoop, hf, ih, Nat.add_assoc, Nat.add_comm 1]

theorem openProcs_closed (os : OS) (pids : List Int) (c : Counters)
    (h : ∀ pid ∈ pids, isFatal os pid = false) :
    openProcs os pids c =
      Except.ok ({ c with nRestricted := c.nRestricted + pids.countP (isRestricted os) },
        recordsOf os pids) := by
  induction pids generalizing c with
  | nil => simp [openProcs, recordsOf]
  | cons pid rest ih =>
    have hrest : ∀ q ∈ rest, isFatal os q = false := fun q hq => h q (List.mem_cons_of_mem _ hq)
    have hpid := h pid (List.mem_cons_self _ _)
    cases ho : openOne os pid with
    | restricted =>
      simp [openProcs, ho, ih _ hrest, recordsOf, openedRecord, isRestricted, List.countP_cons,
        Nat.add_assoc, Nat.add_comm 1]
    | fatal msg => simp [isFatal, ho] at hpid
    | record p =>
      simp [openProcs, ho, ih _ hrest, recordsOf, openedRecord, isRestricted, List.countP_cons]

theorem pipeline_closed (pattern : Bytes → Bool) (os : OS) (c : Counters)
    (hd : os.readDir ≠ none) (h : ∀ pid ∈ allPids os, isFatal os pid = false) :
    pipeline pattern os c =
      Except.ok
        ({ c with nProcs := c.nProcs + (allPids os).length,
                  nRestricted := c.nRestricted + (allPids os).countP (isRestricted os),
                  nScanned := c.nScanned + (recordsOf os (allPids os)).length,
                  nMatched := c.nMatched + (forwarded pattern os).length },
         forwarded pattern os) := by
  cases hr : os.readDir with
  | none => exact absurd hr hd
  | some files =>
    have hall : allPids os = files.filterMap os.atoi := by simp [allPids, hr]
    rw [hall] at h
    simp [pipeline, listPIDs, hr, listLoop_eq, openProcs_closed os _ _ h, matchProcs_eq,
      forwarded, hall]

/-! ## What holds once `main` has left its loop -/

theorem pastLoop_drained (s : State) (h : Cascade s) (hp : s.main.pastLoop = true) :
    s.filtered.buf = [] ∧ s.mpc = MatchPC.done ∧ s.procs.buf = [] ∧ s.opc = OpenPC.done
    ∧ s.pids.buf = [] ∧ s.lpc = ListPC.done ∧ s.main.held = [] := by
  obtain ⟨k1, k2, k3, k4, k5, k6⟩ := h
  have h6 := k6 hp
  have h5 := k5 h6.1
  have h4 := k4 (Or.inr h5)
  have h3 := k3 h4.1
  have h2 := k2 (Or.inr h3)
  have h1 := k1 h2.1
  refine ⟨h6.2, h5, h4.2, h3, h2.2, h1, ?_⟩
  cases hm : s.main <;> simp_all [MainPC.pastLoop, MainPC.held]

theorem pastLoop_tallies (pattern : Bytes → Bool) (os : OS) (s : State)
    (hI : Inv pattern os s) (hp : s.main.pastLoop = true) :
    s.workers.map (fun w => w.proc) = forwarded pattern os
    ∧ s.c.nProcs = (allPids os).length
    ∧ s.c.nRestricted = (allPids os).countP (isRestricted os)
    ∧ s.c.nScanned = (recordsOf os (allPids os)).length
    ∧ s.c.nMatched = (forwarded pattern os).length := by
  obtain ⟨hc, hk, _, _, _, ht, hf⟩ := hI
  obtain ⟨d1, d2, d3, d4, d5, d6, d7⟩ := pastLoop_drained s hk hp
  have hw : s.workers.map (fun w => w.proc) = forwarded pattern os := by
    rw [← hf]
    simp [forwardedAhead, recsAhead, pidsAhead, d1, d2, d3, d4, d5, d6, d7, MatchPC.heldOut,
      MatchPC.heldIn, OpenPC.heldRec, OpenPC.heldPid, ListPC.ahead, recordsOf]
  obtain ⟨t1, t2, t3⟩ := ht
  obtain ⟨_, _, c3, _, _, _⟩ := hc
  simp only [recsAhead, pidsAhead, d1, d2, d3, d4, d5, d6, d7, MatchPC.heldIn, OpenPC.heldRec,
    OpenPC.heldPid, ListPC.ahead, ListPC.held, OpenPC.dropping, MatchPC.scanned,
    MatchPC.sending, recordsOf, List.append_nil, List.filterMap_nil, List.length_nil,
    List.countP_nil, Nat.add_zero] at t1 t2 t3 c3
  refine ⟨hw, t1, t2, t3, ?_⟩
  rw [c3, ← hw, List.length_map]

theorem pastWait_all_done (pattern : Bytes → Bool) (os : OS) (s : State)
    (hI : Inv pattern os s) (hp : s.main.pastWait = true) :
    (∀ w ∈ s.workers, w.kpc = KillPC.done)
    ∧ s.c.nKilled + s.c.nProtected = s.workers.length := by
  obtain ⟨⟨_, _, _, c4, c5, c6⟩, _⟩ := hI
  have hwg := c6 hp
  rw [hwg] at c5
  have hlive : s.workers.countP (fun w => w.kpc.live) = 0 := by omega
  have hall : ∀ w ∈ s.workers, w.kpc = KillPC.done := by
    intro w hw
    have hnl := (List.countP_eq_zero.1 hlive) w hw
    cases hk : w.kpc <;> rw [hk] at hnl <;> simp [KillPC.live] at hnl ⊢
  refine ⟨hall, ?_⟩
  rw [c4]
  apply List.countP_eq_length.2
  intro w hw
  simp [hall w hw, KillPC.counted]

theorem pastWait_pastLoop (m : MainPC) (h : m.pastWait = true) : m.pastLoop = true := by
  cases m <;> simp_all [MainPC.pastWait, MainPC.pastLoop]

theorem done_pipeline (pattern : Bytes → Bool) (os : OS) (s : State)
    (hI : Inv pattern os s) (hd : s.main = MainPC.done) :
    pipeline pattern os Counters.zero =
      Except.ok ({ s.c with nKilled := 0, nProtected := 0 }, s.workers.map (fun w => w.proc)) := by
  have hp : s.main.pastLoop = true := by simp [hd, MainPC.pastLoop]
  obtain ⟨hw, t1, t2, t3, t4⟩ := pastLoop_tallies pattern os s hI hp
  obtain ⟨_, hk, _, he, hn, _, _⟩ := hI
  obtain ⟨d1, d2, d3, d4, d5, d6, d7⟩ := pastLoop_drained s hk hp
  have ha : s.aborted = none := by
    by_contra hne
    exact he.1 hne hd
  obtain ⟨n1, n2⟩ := hn ha
  have hdir : os.readDir ≠ none := n1 (by simp [d6])
  have hfat : ∀ pid ∈ allPids os, isFatal os pid = false :=
    n2 (by simp [pidsAhead, d4, d5, d6, OpenPC.heldPid, ListPC.ahead])
  rw [pipeline_closed pattern os Counters.zero hdir hfat, hw]
  simp [Counters.zero, t1, t2, t3, t4]

/-! ## The events of a worker, read off the invariant -/

theorem take_eq_append_cons {α : Type} (S A B : List α) (x : α) (n : Nat)
    (h : S.take n = A ++ x :: B) : S[A.length]? = some x ∧ S.take A.length = A := by
  have hS : S = A ++ (x :: B ++ S.drop n) := by
    conv_lhs => rw [← List.take_append_drop n S, h]
    simp
  constructor
  · rw [hS, List.getElem?_append_right (Nat.le_refl _)]
    simp
  · conv_lhs => rw [hS]
    simp

theorem script_kill_at (os : OS) (i : Nat) (proc : Process) (k j : Nat) (h : OsProcess)
    (hk : (script os i proc)[k]? = some (Event.kill j h)) :
    k = 3 ∧ j = i ∧ h = proc.proc ∧ ∃ st err, os.wait proc.proc = WaitResult.returns st err
      ∧ (script os i proc).take 3 =
          [Event.waitBegin i proc.proc, Event.waitReturn i proc.proc st, Event.recvFirst i] := by
  unfold script at hk ⊢
  cases hw : os.wait proc.proc with
  | never =>
    rw [hw] at hk
    rcases k with _ | k <;> simp at hk
  | returns st err =>
    rw [hw] at hk
    rcases k with _ | _ | _ | _ | _ | _ | k <;> simp at hk
    obtain ⟨h1, h2⟩ := hk
    exact ⟨rfl, h1.symm, h2.symm, st, err, rfl, by simp⟩

theorem script_print_at (os : OS) (i : Nat) (proc : Process) (k j : Nat) (l : Line)
    (hk : (script os i proc)[k]? = some (Event.print j l)) :
    k = 5 ∧ j = i ∧ ∃ st err, os.wait proc.proc = WaitResult.returns st err
      ∧ l = reportLine proc (didExitOf st)
      ∧ (script os i proc).take 5 =
          [Event.waitBegin i proc.proc, Event.waitReturn i proc.proc st, Event.recvFirst i,
           Event.kill i proc.proc, Event.recvState i st] := by
  unfold script at hk ⊢
  cases hw : os.wait proc.proc with
  | never =>
    rw [hw] at hk
    rcases k with _ | k <;> simp at hk
  | returns st err =>
    rw [hw] at hk
    rcases k with _ | _ | _ | _ | _ | _ | k <;> simp at hk
    obtain ⟨h1, h2⟩ := hk
    exact ⟨rfl, h1.symm, st, err, rfl, h2.symm, by simp⟩

theorem eventsOf_cons_own (i : Nat) (e : Event) (l : List Event) (h : e.worker = some i) :
    eventsOf i (e :: l) = e :: eventsOf i l := by
  simp [eventsOf, h]

theorem worker_of_event (os : OS) (ws : List Worker) (log : List Event) (h : WorkersOk os ws log)
    (e : Event) (i : Nat) (he : e ∈ log) (hi : e.worker = some i) :
    ∃ w n, ws[i]? = some w ∧ w.progress os = some n
      ∧ eventsOf i log = (script os i w.proc).take n := by
  have hlt := h.2 e he i hi
  obtain ⟨n, hn, hlog⟩ := h.1 i ws[i] (List.getElem?_eq_getElem hlt)
  exact ⟨ws[i], n, List.getElem?_eq_getElem hlt, hn, hlog⟩

theorem before_kill (os : OS) (ws : List Worker) (log : List Event) (h : WorkersOk os ws log)
    (i : Nat) (hd : OsProcess) (l1 l2 : List Event) (hl : log = l1 ++ Event.kill i hd :: l2) :
    ∃ w st err, ws[i]? = some w ∧ w.proc.proc = hd
      ∧ os.wait hd = WaitResult.returns st err
      ∧ eventsOf i l1 = [Event.waitBegin i hd, Event.waitReturn i hd st, Event.recvFirst i] := by
  obtain ⟨w, n, hw, _, hlog⟩ :=
    worker_of_event os ws log h (Event.kill i hd) i (by simp [hl]) rfl
  rw [hl, eventsOf_append, eventsOf_cons_own i (Event.kill i hd) l2 rfl] at hlog
  obtain ⟨h1, h2⟩ := take_eq_append_cons _ _ _ _ _ hlog.symm
  obtain ⟨h3, _, h5, st, err, h6, h7⟩ := script_kill_at os i w.proc _ i hd h1
  rw [h3] at h2
  refine ⟨w, st, err, hw, h5.symm, by rw [h5]; exact h6, ?_⟩
  rw [← h2, h7, h5]

theorem before_print (os : OS) (ws : List Worker) (log : List Event) (h : WorkersOk os ws log)
    (i : Nat) (l : Line) (l1 l2 : List Event) (hl : log = l1 ++ Event.print i l :: l2) :
    ∃ w st err, ws[i]? = some w
      ∧ os.wait w.proc.proc = WaitResult.returns st err
      ∧ l = reportLine w.proc (didExitOf st)
      ∧ eventsOf i l1 =
          [Event.waitBegin i w.proc.proc, Event.waitReturn i w.proc.proc st, Event.recvFirst i,
           Event.kill i w.proc.proc, Event.recvState i st] := by
  obtain ⟨w, n, hw, _, hlog⟩ :=
    worker_of_event os ws log h (Event.print i l) i (by simp [hl]) rfl
  rw [hl, eventsOf_append, eventsOf_cons_own i (Event.print i l) l2 rfl] at hlog
  obtain ⟨h1, h2⟩ := take_eq_append_cons _ _ _ _ _ hlog.symm
  obtain ⟨h3, _, st, err, h6, h7, h8⟩ := script_print_at os i w.proc _ i l h1
  rw [h3] at h2
  exact ⟨w, st, err, hw, h6, h7, by rw [← h2, h8]⟩

theorem blocked_worker (os : OS) (ws : List Worker) (log : List Event) (h : WorkersOk os ws log)
    (i : Nat) (w : Worker) (hw : ws[i]? = some w) (hn : os.wait w.proc.proc = WaitResult.never) :
    (∀ hd, Event.kill i hd ∉ log) ∧ (w.kpc = KillPC.monitor ∨ w.kpc = KillPC.recvFirst)
    ∧ ∀ c, tryKill os i w.proc c = Result.blocked := by
  refine ⟨?_, ?_, ?_⟩
  · intro hd hmem
    obtain ⟨l1, l2, hl⟩ := List.append_of_mem hmem
    obtain ⟨w2, st, err, hw2, hp, hwt, _⟩ := before_kill os ws log h i hd l1 l2 hl
    rw [hw] at hw2
    cases hw2
    rw [hp, hwt] at hn
    cases hn
  · obtain ⟨n, hp, _⟩ := h.1 i w hw
    rcases w with ⟨proc, kpc, mpc⟩
    cases kpc <;> cases mpc <;>
      simp_all [Worker.progress, WaitResult.state, MonitorPC.finished]
  · intro c
    simp [tryKill, hn]

theorem run_kill_irrelevant (pattern : Bytes → Bool) (os : OS) (k : OsProcess → Option String)
    (sched : List Actor) (s : State) :
    run pattern { os with kill := k } sched s = run pattern os sched s := by
  induction sched generalizing s with
  | nil => rfl
  | cons a rest ih =>
    have hstep : step pattern { os with kill := k } a s = step pattern os a s := by
      cases a <;> rfl
    simp only [run, hstep, ih]

theorem done_worker (os : OS) (ws : List Worker) (log : List Event) (h : WorkersOk os ws log)
    (i : Nat) (w : Worker) (hw : ws[i]? = some w) (hk : w.kpc = KillPC.done) :
    ∃ st err, os.wait w.proc.proc = WaitResult.returns st err
      ∧ eventsOf i log = script os i w.proc
      ∧ ∀ c, tryKill os i w.proc c =
          Result.ok (script os i w.proc, reportCount (didExitOf st) c) := by
  obtain ⟨n, hp, hlog⟩ := h.1 i w hw
  rcases w with ⟨proc, kpc, mpc⟩
  simp only at hk
  subst hk
  cases hwt : os.wait proc.proc with
  | never => simp [Worker.progress, WaitResult.state, hwt] at hp
  | returns st err =>
    simp only [Worker.progress, WaitResult.state, hwt] at hp
    split at hp
    · cases hp
      refine ⟨st, err, rfl, ?_, ?_⟩
      · rw [hlog]
        simp [script, hwt]
      · intro c
        rw [tryKill_returns os i proc c st err hwt]
        simp [script, hwt]
    · cases hp

theorem script_count_kill (os : OS) (i : Nat) (proc : Process) (j : Nat) (hd : OsProcess) :
    (script os i proc).count (Event.kill j hd) ≤ 1 := by
  unfold script
  cases os.wait proc.proc <;> simp [List.count_cons]
  split <;> simp

theorem script_count_kill_returns (os : OS) (i : Nat) (proc : Process) (hd : OsProcess)
    (st : Option ProcessState) (err : Option String)
    (hw : os.wait proc.proc = WaitResult.returns st err) :
    (script os i proc).count (Event.kill i hd) = if proc.proc = hd then 1 else 0 := by
  simp [script, hw, List.count_cons]

theorem count_eq_eventsOf (i : Nat) (e : Event) (log : List Event) (he : e.worker = some i) :
    log.count e = (eventsOf i log).count e := by
  unfold eventsOf
  rw [List.count_filter]
  simp [he]

theorem kill_count_le_one (os : OS) (ws : List Worker) (log : List Event)
    (h : WorkersOk os ws log) (i : Nat) (hd : OsProcess) :
    log.count (Event.kill i hd) ≤ 1 := by
  by_cases hmem : Event.kill i hd ∈ log
  · obtain ⟨w, n, _, _, hlog⟩ := worker_of_event os ws log h _ i hmem rfl
    rw [count_eq_eventsOf i (Event.kill i hd) log rfl, hlog]
    exact Nat.le_trans ((List.take_sublist n _).count_le _) (script_count_kill os i w.proc i hd)
  · rw [List.count_eq_zero.2 hmem]
    exact Nat.zero_le 1

theorem reportCount_cases (b : Bool) (c : Counters) :
    reportCount b c = { c with nKilled := c.nKilled + 1 }
    ∨ reportCount b c = { c with nProtected := c.nProtected + 1 } := by
  cases b <;> simp [reportCount]

theorem tryKill_counts_one (os : OS) (i : Nat) (proc : Process) (c : Counters)
    (evs : List Event) (c2 : Counters) (h : tryKill os i proc c = Result.ok (evs, c2)) :
    c2 = { c with nKilled := c.nKilled + 1 } ∨ c2 = { c with nProtected := c.nProtected + 1 } := by
  cases hw : os.wait proc.proc with
  | never => simp [tryKill, hw] at h
  | returns st err =>
    rw [tryKill_returns os i proc c st err hw] at h
    simp only [Result.ok.injEq, Prod.mk.injEq] at h
    rw [← h.2]
    exact reportCount_cases _ c

theorem step_counters (pattern : Bytes → Bool) (os : OS) (a : Actor) (s s2 : State)
    (hs : stepOpt pattern os a s = some s2) :
    s2.c = s.c
    ∨ (a = Actor.list ∧ s2.c = { s.c with nProcs := s.c.nProcs + 1 })
    ∨ (a = Actor.opener ∧ s2.c = { s.c with nRestricted := s.c.nRestricted + 1 })
    ∨ (a = Actor.matcher ∧ s2.c = { s.c with nScanned := s.c.nScanned + 1 })
    ∨ (a = Actor.matcher ∧ s2.c = { s.c with nMatched := s.c.nMatched + 1 })
    ∨ ((∃ i, a = Actor.killer i) ∧ s2.c = { s.c with nKilled := s.c.nKilled + 1 })
    ∨ ((∃ i, a = Actor.killer i) ∧ s2.c = { s.c with nProtected := s.c.nProtected + 1 }) := by
  unfold stepOpt at hs
  split at hs
  · simp at hs
  · cases a with
    | list =>
      simp only [stepList] at hs
      split at hs <;> (try split at hs) <;> simp at hs <;> subst hs <;> simp
    | opener =>
      simp only [stepOpen] at hs
      split at hs <;> (try split at hs) <;> (try split at hs) <;> simp at hs <;> subst hs <;> simp
    | matcher =>
      simp only [stepMatch] at hs
      split at hs <;> (try split at hs) <;> (try split at hs) <;> simp at hs <;> subst hs <;> simp
    | main =>
      simp only [stepMain] at hs
      split at hs <;> (try split at hs) <;> (try split at hs) <;> simp at hs <;> subst hs <;> simp
    | killer i =>
      simp only [stepKiller] at hs
      split at hs
      · simp at hs
      · split at hs <;> (try split at hs) <;> simp at hs <;> subst hs <;>
          first
          | (left; rfl)
          | (rename_i b _
             rcases reportCount_cases b s.c with hb | hb
             · right; right; right; right; right; left
               exact ⟨⟨i, rfl⟩, hb⟩
             · right; right; right; right; right; right
               exact ⟨⟨i, rfl⟩, hb⟩)
    | monitor i =>
      simp only [stepMonitor] at hs
      split at hs
      · simp at hs
      · split at hs <;> (try split at hs) <;> simp at hs <;> subst hs <;> simp

/-! ## The claims about the concurrent program -/

/-- C4. In every state the program reaches, `nScanned <= nProcs - nRestricted` and
`nMatched <= nScanned`; every identifier counted in `nProcs` is counted in `nRestricted` or
`nScanned` or is still in one of the first two channels or held by a stage; a step leaves
the counters alone or adds one to exactly one of them, `nProcs` in a step of `listPIDs`,
`nRestricted` in a step of `openProcs`, `nScanned` and `nMatched` in steps of `matchProcs`;
and once `main` has left its loop the four counters are the number of pids listed, of pids
whose handle could not be acquired, of records opened and of records forwarded. -/
theorem counters_ordered (pattern : Bytes → Bool) (os : OS) (sched : List Actor) :
    (((run pattern os sched init).c.nScanned : Int)
        ≤ ((run pattern os sched init).c.nProcs : Int)
          - ((run pattern os sched init).c.nRestricted : Int))
    ∧ (run pattern os sched init).c.nMatched ≤ (run pattern os sched init).c.nScanned
    ∧ (run pattern os sched init).c.nProcs =
        (run pattern os sched init).c.nRestricted + (run pattern os sched init).c.nScanned
          + (run pattern os sched init).pids.buf.length
          + (run pattern os sched init).procs.buf.length
          + (run pattern os sched init).lpc.held + (run pattern os sched init).opc.held
          + (run pattern os sched init).mpc.unscanned
    ∧ (∀ a,
        (step pattern os a (run pattern os sched init)).c = (run pattern os sched init).c
        ∨ (a = Actor.list ∧ (step pattern os a (run pattern os sched init)).c =
            { (run pattern os sched init).c with
                nProcs := (run pattern os sched init).c.nProcs + 1 })
        ∨ (a = Actor.opener ∧ (step pattern os a (run pattern os sched init)).c =
            { (run pattern os sched init).c with
                nRestricted := (run pattern os sched init).c.nRestricted + 1 })
        ∨ (a = Actor.matcher ∧ (step pattern os a (run pattern os sched init)).c =
            { (run pattern os sched init).c with
                nScanned := (run pattern os sched init).c.nScanned + 1 })
        ∨ (a = Actor.matcher ∧ (step pattern os a (run pattern os sched init)).c =
            { (run pattern os sched init).c with
                nMatched := (run pattern os sched init).c.nMatched + 1 })
        ∨ ((∃ i, a = Actor.killer i) ∧ (step pattern os a (run pattern os sched init)).c =
            { (run pattern os sched init).c with
                nKilled := (run pattern os sched init).c.nKilled + 1 })
        ∨ ((∃ i, a = Actor.killer i) ∧ (step pattern os a (run pattern os sched init)).c =
            { (run pattern os sched init).c with
                nProtected := (run pattern os sched init).c.nProtected + 1 }))
    ∧ ((run pattern os sched init).main.pastLoop = true →
        (run pattern os sched init).c.nProcs = ((os.readDir.getD []).filterMap os.atoi).length
        ∧ (run pattern os sched init).c.nRestricted =
            ((os.readDir.getD []).filterMap os.atoi).countP (isRestricted os)
        ∧ (run pattern os sched init).c.nScanned =
            (recordsOf os ((os.readDir.getD []).filterMap os.atoi)).length
        ∧ (run pattern os sched init).c.nMatched =
            ((recordsOf os ((os.readDir.getD []).filterMap os.atoi)).filter
              (matchCond pattern os.getpid)).length) := by
  have hI := inv_run pattern os sched
  obtain ⟨c1, c2, _, _, _, _⟩ := hI.1
  refine ⟨by omega, by omega, c1, ?_, ?_⟩
  · intro a
    unfold step
    cases hs : stepOpt pattern os a (run pattern os sched init) with
    | none => exact Or.inl rfl
    | some s2 => exact step_counters pattern os a _ s2 hs
  · intro hp
    obtain ⟨_, t1, t2, t3, t4⟩ := pastLoop_tallies pattern os _ hI hp
    exact ⟨t1, t2, t3, t4⟩

/-- C3. Once `main` has passed `wg.Wait()`, so when the summary is printed,
`nKilled + nProtected = nMatched`: there is one worker per record counted in `nMatched`,
every worker has returned and has run `tryKill` once, to its end; the counters printed
in the summary satisfy the equation; and a call of `tryKill` that returns adds one to
exactly one of `nKilled` and `nProtected` and changes no other counter. -/
theorem summary_balance (pattern : Bytes → Bool) (os : OS) (sched : List Actor)
    (hp : (run pattern os sched init).main.pastWait = true) :
    (run pattern os sched init).c.nKilled + (run pattern os sched init).c.nProtected
        = (run pattern os sched init).c.nMatched
    ∧ (run pattern os sched init).workers.length = (run pattern os sched init).c.nMatched
    ∧ (∀ i w, (run pattern os sched init).workers[i]? = some w →
        w.kpc = KillPC.done
        ∧ ∃ c1, tryKill os i w.proc Counters.zero
            = Result.ok (eventsOf i (run pattern os sched init).log, c1))
    ∧ (∀ c, Event.summary c ∈ (run pattern os sched init).log →
        c.nKilled + c.nProtected = c.nMatched)
    ∧ (∀ i proc c evs c2, tryKill os i proc c = Result.ok (evs, c2) →
        c2 = { c with nKilled := c.nKilled + 1 }
        ∨ c2 = { c with nProtected := c.nProtected + 1 }) := by
  have hI := inv_run pattern os sched
  obtain ⟨hall, hsum⟩ := pastWait_all_done pattern os _ hI hp
  obtain ⟨hw, _, _, _, t4⟩ :=
    pastLoop_tallies pattern os _ hI (pastWait_pastLoop _ hp)
  have hlen : (run pattern os sched init).workers.length
      = (run pattern os sched init).c.nMatched := by
    rw [t4, ← hw, List.length_map]
  refine ⟨by omega, hlen, ?_, ?_, tryKill_counts_one os⟩
  · intro i w hiw
    have hk := hall w (List.getElem?_mem hiw)
    obtain ⟨st, err, _, hev, htk⟩ := done_worker os _ _ hI.2.2.1 i w hiw hk
    exact ⟨hk, _, by rw [hev]; exact htk Counters.zero⟩
  · intro c hc
    obtain ⟨_, hceq⟩ := hI.2.2.2.1.2 c hc
    rw [hceq]
    omega

/-- C10. In every state the program reaches: when `Kill` is called by worker `i`, what
the worker has done before is, in this order, begin `p.Wait()`, see it return, and pass
the first value over `stateChan`; the line a worker prints reports the state that this
`Wait` had returned; the run does not depend on what `Kill` returns; and a worker whose
`Wait` never returns calls no `Kill` and stays at or before the receive of line 107, as
its `tryKill` never returns. -/
theorem kill_only_after_wait_returned (pattern : Bytes → Bool) (os : OS) (sched : List Actor) :
    (∀ i h l1 l2, (run pattern os sched init).log = l1 ++ Event.kill i h :: l2 →
        ∃ w st err, (run pattern os sched init).workers[i]? = some w ∧ w.proc.proc = h
          ∧ os.wait h = WaitResult.returns st err
          ∧ eventsOf i l1 =
              [Event.waitBegin i h, Event.waitReturn i h st, Event.recvFirst i])
    ∧ (∀ i l l1 l2, (run pattern os sched init).log = l1 ++ Event.print i l :: l2 →
        ∃ w st err, (run pattern os sched init).workers[i]? = some w
          ∧ os.wait w.proc.proc = WaitResult.returns st err
          ∧ l = reportLine w.proc (didExitOf st)
          ∧ eventsOf i l1 =
              [Event.waitBegin i w.proc.proc, Event.waitReturn i w.proc.proc st,
               Event.recvFirst i, Event.kill i w.proc.proc, Event.recvState i st])
    ∧ (∀ k, run pattern { os with kill := k } sched init = run pattern os sched init)
    ∧ (∀ i w, (run pattern os sched init).workers[i]? = some w →
        os.wait w.proc.proc = WaitResult.never →
        (∀ h, Event.kill i h ∉ (run pattern os sched init).log)
        ∧ (w.kpc = KillPC.monitor ∨ w.kpc = KillPC.recvFirst)
        ∧ ∀ c, tryKill os i w.proc c = Result.blocked) := by
  have hW := (inv_run pattern os sched).2.2.1
  exact ⟨before_kill os _ _ hW, before_print os _ _ hW,
    fun k => run_kill_irrelevant pattern os k sched init,
    blocked_worker os _ _ hW⟩

/-! ## The claims on the sample environment -/

set_option maxRecDepth 20000 in
theorem demo_run_done : (run demoPattern demoOS demoSched init).main = MainPC.done := by
  decide

set_option maxRecDepth 20000 in
theorem demo_run_counters : (run demoPattern demoOS demoSched init).c = ⟨4, 1, 3, 2, 1, 1⟩ := by
  decide

set_option maxRecDepth 20000 in
theorem demo_run_workers :
    (run demoPattern demoOS demoSched init).workers.map (fun w => w.proc) = [victimA, victimB] := by
  decide

set_option maxRecDepth 20000 in
theorem demo_run_log :
    (run demoPattern demoOS demoSched init).log =
      [Event.waitBegin 0 ⟨7⟩, Event.waitReturn 0 ⟨7⟩ none, Event.recvFirst 0, Event.kill 0 ⟨7⟩,
       Event.recvState 0 none, Event.print 0 (Line.killed 7 (bytesOf "victim-A")),
       Event.waitBegin 1 ⟨9⟩, Event.waitReturn 1 ⟨9⟩ (some ⟨9, false⟩), Event.recvFirst 1,
       Event.kill 1 ⟨9⟩, Event.recvState 1 (some ⟨9, false⟩),
       Event.print 1 (Line.couldNot 9 (bytesOf "victim-B")),
       Event.summary ⟨4, 1, 3, 2, 1, 1⟩] := by
  decide

set_option maxRecDepth 20000 in
theorem stubborn_run_log :
    (run demoPattern stubbornOS demoSched init).log
      = [Event.waitBegin 0 ⟨7⟩, Event.waitBegin 1 ⟨9⟩] := by
  decide

set_option maxRecDepth 20000 in
theorem stubborn_run_workers :
    (run demoPattern stubbornOS demoSched init).workers
      = [⟨victimA, KillPC.recvFirst, MonitorPC.waiting⟩,
         ⟨victimB, KillPC.recvFirst, MonitorPC.waiting⟩] := by
  decide

set_option maxRecDepth 20000 in
theorem stubborn_run_main :
    (run demoPattern stubbornOS demoSched init).main = MainPC.wgWait := by
  decide

/-- C3, on the sample run: `main` has passed `wg.Wait()`, the counters are 4 processes,
1 restricted, 3 scanned, 2 matched, 1 killed, 1 protected. -/
theorem summary_balance_witness :
    (run demoPattern demoOS demoSched init).main.pastWait = true
    ∧ (run demoPattern demoOS demoSched init).c = ⟨4, 1, 3, 2, 1, 1⟩
    ∧ (run demoPattern demoOS demoSched init).c.nKilled
        + (run demoPattern demoOS demoSched init).c.nProtected
        = (run demoPattern demoOS demoSched init).c.nMatched :=
  ⟨by rw [demo_run_done]; rfl, demo_run_counters,
    (summary_balance demoPattern demoOS demoSched (by rw [demo_run_done]; rfl)).1⟩

/-- C10, on two sample runs: in the run on `demoOS` the events of worker 0 before its
`Kill` are the begin and the return of `Wait` and the first receive; in the run on
`stubbornOS`, where `Wait` never returns, worker 0 calls no `Kill`. -/
theorem kill_only_after_wait_returned_witness :
    (∃ w st err, (run demoPattern demoOS demoSched init).workers[0]? = some w
        ∧ w.proc.proc = ⟨7⟩ ∧ demoOS.wait ⟨7⟩ = WaitResult.returns st err
        ∧ eventsOf 0 [Event.waitBegin 0 ⟨7⟩, Event.waitReturn 0 ⟨7⟩ none, Event.recvFirst 0]
            = [Event.waitBegin 0 ⟨7⟩, Event.waitReturn 0 ⟨7⟩ st, Event.recvFirst 0])
    ∧ ((∀ h, Event.kill 0 h ∉ (run demoPattern stubbornOS demoSched init).log)
        ∧ (KillPC.recvFirst = KillPC.monitor ∨ KillPC.recvFirst = KillPC.recvFirst)
        ∧ ∀ c, tryKill stubbornOS 0 victimA c = Result.blocked) :=
  ⟨(kill_only_after_wait_returned demoPattern demoOS demoSched).1 0 ⟨7⟩
      [Event.waitBegin 0 ⟨7⟩, Event.waitReturn 0 ⟨7⟩ none, Event.recvFirst 0] _ demo_run_log,
   (kill_only_after_wait_returned demoPattern stubbornOS demoSched).2.2.2 0
      ⟨victimA, KillPC.recvFirst, MonitorPC.waiting⟩ (by rw [stubborn_run_workers]; rfl) rfl⟩

/-- C9, at the record of pid 7. On `demoOS`, `tryKill` has seen `Wait` return and has
taken the first value from `stateChan` before it calls `Kill`; on `stubbornOS`, where
`Wait` does not return, `tryKill` blocks and the whole run holds no call of `Kill`. -/
theorem signal_waits_for_wait_at_victim :
    tryKill demoOS 0 victimA Counters.zero =
        Result.ok
          ([Event.waitBegin 0 ⟨7⟩, Event.waitReturn 0 ⟨7⟩ none, Event.recvFirst 0,
            Event.kill 0 ⟨7⟩, Event.recvState 0 none,
            Event.print 0 (Line.killed 7 (bytesOf "victim-A"))],
           ⟨0, 0, 0, 0, 1, 0⟩)
    ∧ eventsOf 0 (run demoPattern demoOS demoSched init).log =
        [Event.waitBegin 0 ⟨7⟩, Event.waitReturn 0 ⟨7⟩ none, Event.recvFirst 0,
         Event.kill 0 ⟨7⟩, Event.recvState 0 none,
         Event.print 0 (Line.killed 7 (bytesOf "victim-A"))]
    ∧ tryKill stubbornOS 0 victimA Counters.zero = Result.blocked
    ∧ (run demoPattern stubbornOS demoSched init).log
        = [Event.waitBegin 0 ⟨7⟩, Event.waitBegin 1 ⟨9⟩]
    ∧ (run demoPattern stubbornOS demoSched init).main = MainPC.wgWait := by
  refine ⟨rfl, ?_, rfl, stubborn_run_log, stubborn_run_main⟩
  rw [demo_run_log]
  decide

/-! ## Further properties: the sequential reading, and the panics -/

theorem openOne_fatal (os : OS) (pid : Int) (msg : String)
    (h : openOne os pid = OpenStep.fatal msg) :
    ∃ hd, os.findProcess pid = some hd ∧ os.readFile (cmdlinePath pid) = none := by
  rw [openOne_eq] at h
  cases hf : os.findProcess pid with
  | none => simp [hf] at h
  | some hd =>
    cases hr : os.readFile (cmdlinePath pid) with
    | none => exact ⟨hd, rfl, rfl⟩
    | some name => simp [hf, hr] at h

theorem aheadListed_step (pattern : Bytes → Bool) (os : OS) (a : Actor) (s s2 : State)
    (h : AheadListed os s) (hs : stepOpt pattern os a s = some s2) : AheadListed os s2 := by
  unfold stepOpt at hs
  split at hs
  · simp at hs
  · cases a with
    | list =>
      simp only [stepList] at hs
      split at hs <;> (try split at hs) <;> simp at hs <;> subst hs <;>
        intro pid hp <;> apply h pid <;>
        simp_all [pidsAhead, ListPC.ahead]
    | opener =>
      simp only [stepOpen] at hs
      split at hs <;> (try split at hs) <;> (try split at hs) <;> simp at hs <;> subst hs <;>
        intro pid hp <;> apply h pid <;>
        simp_all [pidsAhead, OpenPC.heldPid]
    | matcher =>
      simp only [stepMatch] at hs
      split at hs <;> (try split at hs) <;> (try split at hs) <;> simp at hs <;> subst hs <;>
        exact h
    | main =>
      simp only [stepMain] at hs
      split at hs <;> (try split at hs) <;> (try split at hs) <;> simp at hs <;> subst hs <;>
        exact h
    | killer i =>
      simp only [stepKiller] at hs
      split at hs
      · simp at hs
      · split at hs <;> (try split at hs) <;> simp at hs <;> subst hs <;> exact h
    | monitor i =>
      simp only [stepMonitor] at hs
      split at hs
      · simp at hs
      · split at hs <;> (try split at hs) <;> simp at hs <;> subst hs <;> exact h

theorem abortCause_step (pattern : Bytes → Bool) (os : OS) (a : Actor) (s s2 : State)
    (hc : Conserved s) (hA : AheadListed os s) (hs : stepOpt pattern os a s = some s2) :
    AbortCause os s2 := by
  unfold stepOpt at hs
  split at hs
  · simp at hs
  · rename_i hg
    simp only [not_or, not_not] at hg
    obtain ⟨hg1, _⟩ := hg
    cases a with
    | list =>
      simp only [stepList] at hs
      split at hs <;> (try split at hs) <;> simp at hs <;> subst hs <;>
        simp_all [AbortCause]
    | opener =>
      simp only [stepOpen] at hs
      split at hs <;> (try split at hs) <;> (try split at hs) <;> simp at hs <;> subst hs
      all_goals first
        | (simp_all [AbortCause]; done)
        | (rename_i _ pid hopc _ msg hfat
           intro m hm
           simp only [Option.some.injEq] at hm
           subst hm
           obtain ⟨hd, h1, h2⟩ := openOne_fatal os pid _ hfat
           have hin : pid ∈ allPids os := hA pid (by simp [pidsAhead, hopc, OpenPC.heldPid])
           exact Or.inr ⟨pid, hd, hin, h1, h2, hfat⟩)
    | matcher =>
      simp only [stepMatch] at hs
      split at hs <;> (try split at hs) <;> (try split at hs) <;> simp at hs <;> subst hs <;>
        simp_all [AbortCause]
    | main =>
      simp only [stepMain] at hs
      split at hs <;> (try split at hs) <;> (try split at hs) <;> simp at hs <;> subst hs <;>
        simp_all [AbortCause]
    | killer i =>
      simp only [stepKiller] at hs
      split at hs
      · simp at hs
      · rename_i w hw
        have m5 := countP_ge_of_getElem (fun w => w.kpc.live) s.workers i w hw
        have c5 := hc.2.2.2.2.1
        cases hk : w.kpc with
        | wgDone =>
          simp only [hk] at hs
          split at hs
          · rename_i hz
            have hlive : w.kpc.live = true := by rw [hk]; rfl
            simp only [hlive, if_true] at m5
            omega
          · simp at hs
            subst hs
            simp_all [AbortCause]
        | _ =>
          simp only [hk, exited_eq] at hs
          simp at hs
          try (subst hs; simp_all [AbortCause])
    | monitor i =>
      simp only [stepMonitor] at hs
      split at hs
      · simp at hs
      · split at hs <;> (try split at hs) <;> simp at hs <;> subst hs <;>
          simp_all [AbortCause]

theorem abortCause_run (pattern : Bytes → Bool) (os : OS) (sched : List Actor) :
    AbortCause os (run pattern os sched init) := by
  have h := run_inv pattern os (fun s => Conserved s ∧ AheadListed os s ∧ AbortCause os s)
    (fun a s s2 hP hs =>
      ⟨conserved_step pattern os a s s2 hP.1 hs, aheadListed_step pattern os a s s2 hP.2.1 hs,
        abortCause_step pattern os a s s2 hP.1 hP.2.1 hs⟩)
    sched init
    ⟨(inv_init pattern os).1,
      by intro pid hp
         simpa [pidsAhead, init, OpenPC.heldPid, ListPC.ahead, allPids] using hp,
      by intro msg hm; cases hm⟩
  exact h.2.2

/-! ## Further properties: the sequential reading, and the panics -/

/-- A run of the concurrent program in which `main` returns computes what the three
stages compute one after the other: the workers hold, in order, the records the
sequential pipeline forwards, and the first four counters are those of the sequential
pipeline. -/
theorem completed_run_is_pipeline (pattern : Bytes → Bool) (os : OS) (sched : List Actor)
    (hdone : (run pattern os sched init).main = MainPC.done) :
    pipeline pattern os Counters.zero =
      Except.ok
        ({ (run pattern os sched init).c with nKilled := 0, nProtected := 0 },
         (run pattern os sched init).workers.map (fun w => w.proc)) :=
  done_pipeline pattern os _ (inv_run pattern os sched) hdone

/-- The sample run computes the sequential pipeline. -/
theorem completed_run_is_pipeline_witness :
    (run demoPattern demoOS demoSched init).main = MainPC.done
    ∧ pipeline demoPattern demoOS Counters.zero =
        Except.ok
          ({ (run demoPattern demoOS demoSched init).c with nKilled := 0, nProtected := 0 },
           (run demoPattern demoOS demoSched init).workers.map (fun w => w.proc)) :=
  ⟨demo_run_done, completed_run_is_pipeline demoPattern demoOS demoSched demo_run_done⟩

/-- The program panics only at line 32, when `/proc` cannot be read, and at line 54,
on a listed pid whose handle was acquired and whose cmdline file cannot be read: nothing
that happens to a matched process, and no failure of `FindProcess`, `Wait` or `Kill`,
stops the run. -/
theorem only_two_fatal_errors (pattern : Bytes → Bool) (os : OS) (sched : List Actor)
    (msg : String) (habort : (run pattern os sched init).aborted = some msg) :
    (os.readDir = none ∧ msg = "Error reading /proc: " ++ os.readDirErr ++ "\n")
    ∨ ∃ pid h, pid ∈ (os.readDir.getD []).filterMap os.atoi
        ∧ os.findProcess pid = some h ∧ os.readFile (cmdlinePath pid) = none
        ∧ openOne os pid = OpenStep.fatal msg :=
  abortCause_run pattern os sched msg habort

set_option maxRecDepth 20000 in
theorem broken_run_aborted :
    (run demoPattern brokenOS demoSched init).aborted
      = some "Error: could not open cmd of pid 7\n" := by
  decide

/-- The sample schedule in an environment where no cmdline file can be read: the run
panics at line 54 on pid 7. -/
theorem only_two_fatal_errors_witness :
    (run demoPattern brokenOS demoSched init).aborted
        = some "Error: could not open cmd of pid 7\n"
    ∧ ((brokenOS.readDir = none
          ∧ "Error: could not open cmd of pid 7\n"
              = "Error reading /proc: " ++ brokenOS.readDirErr ++ "\n")
      ∨ ∃ pid h, pid ∈ (brokenOS.readDir.getD []).filterMap brokenOS.atoi
          ∧ brokenOS.findProcess pid = some h ∧ brokenOS.readFile (cmdlinePath pid) = none
          ∧ openOne brokenOS pid = OpenStep.fatal "Error: could not open cmd of pid 7\n") :=
  ⟨broken_run_aborted,
    only_two_fatal_errors demoPattern brokenOS demoSched _ broken_run_aborted⟩

/-! ## Which processes are signaled -/

/-- In every state the program reaches, also after a panic or with goroutines blocked,
`Kill` has only been called on the handle of a record forwarded by `matchProcs`, and at
most once by each worker: the cmdline of the record matches the user pattern and not the
exclusion pattern, and its pid is not the pid of the program. -/
theorem kill_only_on_forwarded (pattern : Bytes → Bool) (os : OS) (sched : List Actor)
    (i : Nat) (h : OsProcess) (hmem : Event.kill i h ∈ (run pattern os sched init).log) :
    ∃ w, (run pattern os sched init).workers[i]? = some w ∧ w.proc.proc = h
      ∧ w.proc ∈ forwarded pattern os
      ∧ pattern w.proc.cmdline = true ∧ selfPattern w.proc.cmdline = false
      ∧ w.proc.pid ≠ os.getpid
      ∧ (run pattern os sched init).log.count (Event.kill i h) ≤ 1 := by
  have hI := inv_run pattern os sched
  obtain ⟨l1, l2, hl⟩ := List.append_of_mem hmem
  obtain ⟨w, st, err, hw, hp, _, _⟩ := before_kill os _ _ hI.2.2.1 i h l1 l2 hl
  have hfw : w.proc ∈ forwarded pattern os := by
    rw [← hI.2.2.2.2.2.2]
    unfold forwardedAhead
    apply List.mem_append_left
    exact List.mem_map.2 ⟨w, List.getElem?_mem hw, rfl⟩
  have hcond := (List.mem_filter.1 hfw).2
  rw [matchCond_iff] at hcond
  exact ⟨w, hw, hp, hfw, hcond.1, hcond.2.1, hcond.2.2,
    kill_count_le_one os _ _ hI.2.2.1 i h⟩

/-- In a run in which `main` returns, the records handed to the workers are, in order,
the records `matchProcs` forwards in the sequential reading of the pipeline, and `Kill`
is called exactly once on the handle of each worker and on nothing else. -/
theorem completed_run_kills (pattern : Bytes → Bool) (os : OS) (sched : List Actor)
    (hdone : (run pattern os sched init).main = MainPC.done) :
    (∃ c1 pids c2 recs, listPIDs os Counters.zero = Except.ok (c1, pids)
        ∧ openProcs os pids c1 = Except.ok (c2, recs)
        ∧ (matchProcs pattern os recs c2).2
            = (run pattern os sched init).workers.map (fun w => w.proc))
    ∧ (∀ i h, (run pattern os sched init).log.count (Event.kill i h) =
        if ((run pattern os sched init).workers[i]?).map (fun w => w.proc.proc) = some h
        then 1 else 0) := by
  have hI := inv_run pattern os sched
  refine ⟨?_, ?_⟩
  · have hpipe := done_pipeline pattern os _ hI hdone
    unfold pipeline at hpipe
    cases hl : listPIDs os Counters.zero with
    | error e => simp [hl] at hpipe
    | ok r1 =>
      obtain ⟨c1, pids⟩ := r1
      simp only [hl] at hpipe
      cases ho : openProcs os pids c1 with
      | error e => simp [ho] at hpipe
      | ok r2 =>
        obtain ⟨c2, recs⟩ := r2
        simp only [ho, Except.ok.injEq] at hpipe
        exact ⟨c1, pids, c2, recs, rfl, ho, by rw [hpipe]⟩
  · intro i h
    have hpw : (run pattern os sched init).main.pastWait = true := by
      simp [hdone, MainPC.pastWait]
    obtain ⟨hall, _⟩ := pastWait_all_done pattern os _ hI hpw
    cases hiw : (run pattern os sched init).workers[i]? with
    | none =>
      have hnot : Event.kill i h ∉ (run pattern os sched init).log := by
        intro hmem
        have hlt := hI.2.2.1.2 _ hmem i rfl
        rw [List.getElem?_eq_getElem hlt] at hiw
        cases hiw
      simp [List.count_eq_zero.2 hnot]
    | some w =>
      have hk := hall w (List.getElem?_mem hiw)
      obtain ⟨st, err, hwt, hev, _⟩ := done_worker os _ _ hI.2.2.1 i w hiw hk
      rw [count_eq_eventsOf i (Event.kill i h) _ rfl, hev,
        script_count_kill_returns os i w.proc h st err hwt]
      simp

/-- The sample run: `main` returns, the workers hold the records of pid 7 and pid 9, and
`Kill` is called once on the handle of pid 7 by worker 0. -/
theorem completed_run_kills_witness :
    (run demoPattern demoOS demoSched init).main = MainPC.done
    ∧ (run demoPattern demoOS demoSched init).workers.map (fun w => w.proc) = [victimA, victimB]
    ∧ (run demoPattern demoOS demoSched init).log.count (Event.kill 0 ⟨7⟩) =
        if ((run demoPattern demoOS demoSched init).workers[0]?).map (fun w => w.proc.proc)
            = some ⟨7⟩
        then 1 else 0 :=
  ⟨demo_run_done, demo_run_workers,
    (completed_run_kills demoPattern demoOS demoSched demo_run_done).2 0 ⟨7⟩⟩

/-- A run in which `main` returns exists only when `Wait` returns on the handle of every
forwarded record. -/
theorem completed_run_waits_return (pattern : Bytes → Bool) (os : OS) (sched : List Actor)
    (hdone : (run pattern os sched init).main = MainPC.done)
    (p : Process) (hp : p ∈ forwarded pattern os) :
    ∃ st err, os.wait p.proc = WaitResult.returns st err := by
  have hI := inv_run pattern os sched
  have hpw : (run pattern os sched init).main.pastWait = true := by
    simp [hdone, MainPC.pastWait]
  obtain ⟨hw, _⟩ := pastLoop_tallies pattern os _ hI (pastWait_pastLoop _ hpw)
  obtain ⟨hall, _⟩ := pastWait_all_done pattern os _ hI hpw
  rw [← hw] at hp
  obtain ⟨w, hwmem, hwp⟩ := List.mem_map.1 hp
  obtain ⟨i, hi⟩ := List.mem_iff_getElem?.1 hwmem
  obtain ⟨st, err, hwt, _, _⟩ := done_worker os _ _ hI.2.2.1 i w hi (hall w hwmem)
  exact ⟨st, err, by rw [← hwp]; exact hwt⟩

set_option maxRecDepth 20000 in
theorem mixed_forwarded : forwarded demoPattern mixedOS = [victimA, victimB] := by
  decide

set_option maxRecDepth 20000 in
theorem mixed_pipeline :
    pipeline demoPattern mixedOS Counters.zero
      = Except.ok (⟨4, 1, 3, 2, 0, 0⟩, [victimA, victimB]) := by
  rfl

set_option maxRecDepth 20000 in
theorem mixed_no_fatal : ∀ pid ∈ allPids mixedOS, isFatal mixedOS pid = false := by
  decide

set_option maxRecDepth 20000 in
theorem mixed_run_state :
    (run demoPattern mixedOS demoSched init).aborted = none
    ∧ (run demoPattern mixedOS demoSched init).main = MainPC.wgWait
    ∧ (run demoPattern mixedOS demoSched init).c = ⟨4, 1, 3, 2, 1, 0⟩
    ∧ (run demoPattern mixedOS demoSched init).workers
        = [⟨victimA, KillPC.done, MonitorPC.done⟩,
           ⟨victimB, KillPC.recvFirst, MonitorPC.waiting⟩] := by
  decide

set_option maxRecDepth 20000 in
theorem mixed_run_log :
    (run demoPattern mixedOS demoSched init).log =
      [Event.waitBegin 0 ⟨7⟩, Event.waitReturn 0 ⟨7⟩ none, Event.recvFirst 0, Event.kill 0 ⟨7⟩,
       Event.recvState 0 none, Event.print 0 (Line.killed 7 (bytesOf "victim-A")),
       Event.waitBegin 1 ⟨9⟩] := by
  decide

/-- C2, at the environment `mixedOS`, where the records of pid 7 and pid 9 are forwarded
and `Wait` on the handle of pid 9 does not return. No run panics and no run ends: on the
sample schedule `main` stands at `wg.Wait()`, `Kill` was called on the handle of pid 7,
and worker 1 stands at the receive of line 107; and in no run at all is `Kill` called on
the handle of the forwarded record of pid 9. -/
theorem forwarded_record_not_signaled_at_mixed :
    pipeline demoPattern mixedOS Counters.zero
        = Except.ok (⟨4, 1, 3, 2, 0, 0⟩, [victimA, victimB])
    ∧ mixedOS.wait victimB.proc = WaitResult.never
    ∧ (run demoPattern mixedOS demoSched init).aborted = none
    ∧ (run demoPattern mixedOS demoSched init).main = MainPC.wgWait
    ∧ (run demoPattern mixedOS demoSched init).workers
        = [⟨victimA, KillPC.done, MonitorPC.done⟩,
           ⟨victimB, KillPC.recvFirst, MonitorPC.waiting⟩]
    ∧ (run demoPattern mixedOS demoSched init).log =
        [Event.waitBegin 0 ⟨7⟩, Event.waitReturn 0 ⟨7⟩ none, Event.recvFirst 0,
         Event.kill 0 ⟨7⟩, Event.recvState 0 none,
         Event.print 0 (Line.killed 7 (bytesOf "victim-A")), Event.waitBegin 1 ⟨9⟩]
    ∧ (∀ sched, (run demoPattern mixedOS sched init).aborted = none)
    ∧ (∀ sched, (run demoPattern mixedOS sched init).main ≠ MainPC.done)
    ∧ (∀ sched i, Event.kill i victimB.proc ∉ (run demoPattern mixedOS sched init).log) := by
  refine ⟨mixed_pipeline, rfl, mixed_run_state.1, mixed_run_state.2.1, mixed_run_state.2.2.2,
    mixed_run_log, ?_, ?_, ?_⟩
  · intro sched
    cases hab : (run demoPattern mixedOS sched init).aborted with
    | none => rfl
    | some msg =>
      rcases abortCause_run demoPattern mixedOS sched msg hab with ⟨hnone, _⟩ | hfat
      · cases hnone
      · obtain ⟨pid, hd, hin, _, _, hf⟩ := hfat
        have := mixed_no_fatal pid hin
        simp [isFatal, hf] at this
  · intro sched hdone
    obtain ⟨st, err, hw⟩ := completed_run_waits_return demoPattern mixedOS sched hdone victimB
      (by rw [mixed_forwarded]; simp)
    cases hw
  · intro sched i hmem
    obtain ⟨l1, l2, hl⟩ := List.append_of_mem hmem
    obtain ⟨_, st, err, _, _, hw, _⟩ :=
      before_kill mixedOS _ _ (inv_run demoPattern mixedOS sched).2.2.1 i victimB.proc l1 l2 hl
    cases hw

end Murder
